import Mathlib

/-!
# libMesh reduced-basis parameters and theta expansions

A shallow embedding of `src/reduced_basis/rb_parameters.C` (class `RBParameters`) and
`src/reduced_basis/rb_theta_expansion.C` (class `RBThetaExpansion`), with the helpers of
`include/utils/utility.h` they call.

Conventions of the embedding.

* `std::map<Key, T>` is the list of its entries in increasing key order (`StdMap`); the
  representation invariant is `StdMap.WF`.
* `std::vector<T>` is `List T` of any length. A value of type `std::size_t` is a `Nat`, and
  arithmetic the code does on one is taken modulo `SIZE_RANGE`. `std::vector::resize(n)` throws
  for `n` above a bound (`std::length_error` above `max_size()`, which depends on the platform
  and on `Real`); the bound is the parameter `max_size` of the functions that resize, and any
  value of it is allowed. A `push_back` and the insertion of a map entry are taken to succeed.
* Arithmetic on an `unsigned int` accumulator, and the conversion of a `std::size_t` the code
  returns as `unsigned int`, are taken modulo `2 ^ 32`. The checked cast `cast_int` is not part
  of the sources at hand and is taken to preserve the value.
* The operator `==` on `Real` is a parameter (`BEq Real`): for IEEE floating-point numbers it is
  not reflexive.
* `Real` and `Number` are chosen when libMesh is configured; they are type parameters here. The
  only value the code builds itself is the value-initialised `Real()`, written `0`.
* A member function that may throw or abort returns `Except Error`. A non-`const` member function
  that may fail returns its outcome together with the object as the call leaves it.
* `libmesh_assert` and `#ifdef DEBUG` depend on the build: each function that contains one takes
  a Boolean saying whether it is active.
-/

namespace libMesh

/-- Ways in which a call ends without returning a value. -/
inductive Error where
  /-- Thrown by `libmesh_error_msg` and `libmesh_error_msg_if`. -/
  | error_msg
  /-- A failed `libmesh_assert` or `libmesh_assert_msg` in a build that checks them. -/
  | assertion_failure
  /-- The C++ standard gives the call no meaning: a call through a null pointer, or a
  subscript past the end of a vector. -/
  | undefined_behavior
  /-- The exception `std::vector::resize` throws when it cannot deliver the size asked for:
  `std::length_error` of the C++ standard library. -/
  | length_error
  deriving DecidableEq, Repr

/-- The range of `unsigned int`. -/
def UINT_RANGE : Nat := 2 ^ 32

/-- The range of `std::size_t` on the 64-bit platforms libMesh is built for. -/
def SIZE_RANGE : Nat := 2 ^ 64

/-! ## `std::map` -/

/-- A `std::map<K, V>` as the list of its entries in increasing key order. -/
abbrev StdMap (K V : Type) := List (K × V)

namespace StdMap

variable {K V : Type}

/-- Representation invariant of a `std::map`: the keys are strictly increasing. -/
def WF [LinearOrder K] (m : StdMap K V) : Prop :=
  List.Pairwise (fun a b => a.1 < b.1) m

/-- The call `map.find(key)`; `none` stands for `map.end()`. -/
def find [LinearOrder K] (m : StdMap K V) (key : K) : Option V :=
  match m with
  | [] => none
  | (k, v) :: rest => if k = key then some v else find rest key

/-- The call `map.count(key)`. -/
def count [LinearOrder K] (m : StdMap K V) (key : K) : Nat :=
  if (find m key).isSome then 1 else 0

/-- The effect of `map.insert_or_assign(key, v)`: the entry for `key` is created at its place in
key order, or overwritten. -/
def assign [LinearOrder K] (m : StdMap K V) (key : K) (v : V) : StdMap K V :=
  match m with
  | [] => [(key, v)]
  | (k, w) :: rest =>
    if key < k then (key, v) :: (k, w) :: rest
    else if k < key then (k, w) :: assign rest key v
    else (key, v) :: rest

/-- The expression `map[key]`: a missing entry is created with a value-initialised value. The
result is the map after the call and the value the returned reference points at. -/
def subscript [LinearOrder K] [Inhabited V] (m : StdMap K V) (key : K) : StdMap K V × V :=
  match find m key with
  | some v => (m, v)
  | none => (assign m key default, default)

/-- The call `map.erase(key)`. -/
def erase [LinearOrder K] (m : StdMap K V) (key : K) : StdMap K V :=
  m.filter (fun pr => !decide (pr.1 = key))

/-- The function `Utility::map_find` behind the `libmesh_map_find` macro. -/
def map_find [LinearOrder K] (m : StdMap K V) (key : K) : Except Error V :=
  match find m key with
  | none => .error .error_msg
  | some v => .ok v

end StdMap

/-! ## `std::vector` -/

/-- The call `vec.resize(n)` on a vector of numbers: cut to `n` elements, or padded with
value-initialised elements. -/
def vector_resize {T : Type} [Zero T] (vec : List T) (n : Nat) : List T :=
  vec.take n ++ List.replicate (n - vec.length) 0

/-! ## `RBParameters` -/

/-- The data members of `RBParameters`. -/
structure RBParameters (Real : Type) where
  /-- The step count reported while no parameter is stored. -/
  _n_steps : Nat
  /-- The parameters proper. -/
  _parameters : StdMap String (List Real)
  /-- The extra parameters. -/
  _extra_parameters : StdMap String (List Real)

namespace RBParameters

variable {Real : Type}

/-- The default constructor `RBParameters::RBParameters()`. -/
def empty : RBParameters Real :=
  { _n_steps := 1, _parameters := [], _extra_parameters := [] }

/-- The constructor `RBParameters::RBParameters(const std::map<std::string, Real> &)`. -/
def from_map (parameter_map : StdMap String Real) : RBParameters Real :=
  { _n_steps := 1
    _parameters :=
      parameter_map.foldl
        (fun m pr => StdMap.assign (StdMap.subscript m pr.1).1 pr.1 [pr.2]) []
    _extra_parameters := [] }

/-- The member `RBParameters::clear`. -/
def clear (_self : RBParameters Real) : RBParameters Real :=
  { _n_steps := 1, _parameters := [], _extra_parameters := [] }

/-- The member `RBParameters::has_value`. -/
def has_value (self : RBParameters Real) (param_name : String) : Bool :=
  decide (StdMap.count self._parameters param_name ≠ 0)

/-- The member `RBParameters::has_extra_value`. -/
def has_extra_value (self : RBParameters Real) (param_name : String) : Bool :=
  decide (StdMap.count self._extra_parameters param_name ≠ 0)

/-- The member `RBParameters::get_step_value(param_name, step)`. -/
def get_step_value (self : RBParameters Real) (param_name : String) (step : Nat) :
    Except Error Real :=
  match StdMap.map_find self._parameters param_name with
  | .error e => .error e
  | .ok vec =>
    if h : step ≥ vec.length then .error .error_msg
    else .ok (vec.get ⟨step, Nat.lt_of_not_ge h⟩)

/-- The member `RBParameters::get_step_value(param_name, step, default_val)`. -/
def get_step_value_default (self : RBParameters Real) (param_name : String) (step : Nat)
    (default_val : Real) : Real :=
  match StdMap.find self._parameters param_name with
  | none => default_val
  | some vec => if h : step < vec.length then vec.get ⟨step, h⟩ else default_val

/-- The member `RBParameters::get_value(param_name)`, kept for backwards compatibility. -/
def get_value (self : RBParameters Real) (param_name : String) : Except Error Real :=
  get_step_value self param_name 0

/-- The member `RBParameters::get_value(param_name, default_val)`, kept for backwards
compatibility. -/
def get_value_default (self : RBParameters Real) (param_name : String) (default_val : Real) :
    Real :=
  get_step_value_default self param_name 0 default_val

/-- The member `RBParameters::set_value(param_name, value)`, kept for backwards
compatibility. -/
def set_value_legacy (self : RBParameters Real) (param_name : String) (value : Real) :
    RBParameters Real :=
  { self with
    _parameters := StdMap.assign (StdMap.subscript self._parameters param_name).1 param_name [value] }

/-- The member `RBParameters::set_value_helper`: the outcome and the map as the call leaves
it. `max_size` is the largest size `resize` delivers, `std::vector<Real>::max_size()` at
most. The sum `index + 1` is formed in `std::size_t`; `resize` throws past `max_size` and then
leaves the vector as `map[param_name]` found or created it; the write `vec[index] = value`
after `resize` is an unchecked subscript. -/
def set_value_helper [Zero Real] (max_size : Nat) (map : StdMap String (List Real))
    (param_name : String) (index : Nat) (value : Real) :
    Except Error Unit × StdMap String (List Real) :=
  let (map1, vec) := StdMap.subscript map param_name
  if vec.length > index then
    (.ok (), StdMap.assign map1 param_name (vec.set index value))
  else if vec.length = index then
    (.ok (), StdMap.assign map1 param_name (vec ++ [value]))
  else if (index + 1) % SIZE_RANGE > max_size then
    (.error .length_error, map1)
  else if index < (vector_resize vec ((index + 1) % SIZE_RANGE)).length then
    (.ok (),
      StdMap.assign map1 param_name
        ((vector_resize vec ((index + 1) % SIZE_RANGE)).set index value))
  else
    (.error .undefined_behavior,
      StdMap.assign map1 param_name (vector_resize vec ((index + 1) % SIZE_RANGE)))

/-- The member `RBParameters::set_value(param_name, index, value)`: the outcome and `*this` as
the call leaves it. -/
def set_value [Zero Real] (max_size : Nat) (self : RBParameters Real) (param_name : String)
    (index : Nat) (value : Real) : Except Error Unit × RBParameters Real :=
  ((set_value_helper max_size self._parameters param_name index value).1,
    { self with
      _parameters := (set_value_helper max_size self._parameters param_name index value).2 })

/-- The member `RBParameters::set_extra_value(param_name, index, value)`: the outcome and
`*this` as the call leaves it. -/
def set_extra_value [Zero Real] (max_size : Nat) (self : RBParameters Real)
    (param_name : String) (index : Nat) (value : Real) :
    Except Error Unit × RBParameters Real :=
  ((set_value_helper max_size self._extra_parameters param_name index value).1,
    { self with
      _extra_parameters :=
        (set_value_helper max_size self._extra_parameters param_name index value).2 })

/-- The member `RBParameters::push_back_value`. -/
def push_back_value (self : RBParameters Real) (param_name : String) (value : Real) :
    RBParameters Real :=
  let (map1, vec) := StdMap.subscript self._parameters param_name
  { self with _parameters := StdMap.assign map1 param_name (vec ++ [value]) }

/-- The member `RBParameters::push_back_extra_value`. -/
def push_back_extra_value (self : RBParameters Real) (param_name : String) (value : Real) :
    RBParameters Real :=
  let (map1, vec) := StdMap.subscript self._extra_parameters param_name
  { self with _extra_parameters := StdMap.assign map1 param_name (vec ++ [value]) }

/-- The member `RBParameters::get_extra_value(param_name)`. -/
def get_extra_value (self : RBParameters Real) (param_name : String) : Except Error Real :=
  match StdMap.map_find self._extra_parameters param_name with
  | .error e => .error e
  | .ok vec =>
    match vec with
    | [] => .error .error_msg
    | first :: _ => .ok first

/-- The member `RBParameters::get_extra_step_value(param_name, step)`. -/
def get_extra_step_value (self : RBParameters Real) (param_name : String) (step : Nat) :
    Except Error Real :=
  match StdMap.map_find self._extra_parameters param_name with
  | .error e => .error e
  | .ok vec =>
    if h : step ≥ vec.length then .error .error_msg
    else .ok (vec.get ⟨step, Nat.lt_of_not_ge h⟩)

/-- The member `RBParameters::set_extra_value(param_name, value)`. -/
def set_extra_value_legacy (self : RBParameters Real) (param_name : String) (value : Real) :
    RBParameters Real :=
  { self with
    _extra_parameters :=
      StdMap.assign (StdMap.subscript self._extra_parameters param_name).1 param_name [value] }

/-- The member `RBParameters::n_parameters`. -/
def n_parameters (self : RBParameters Real) : Nat :=
  self._parameters.length

/-- The member `RBParameters::set_n_steps`. -/
def set_n_steps (self : RBParameters Real) (n_steps : Nat) : RBParameters Real :=
  { self with _n_steps := n_steps }

/-- The member `RBParameters::n_steps`; `debug` says whether `DEBUG` is defined. The sizes are
compared as `std::size_t`; the size of the first vector is returned as `unsigned int`. -/
def n_steps (debug : Bool) (self : RBParameters Real) : Except Error Nat :=
  match self._parameters with
  | [] => .ok self._n_steps
  | (_, first) :: _ =>
    if debug && !(self._parameters.all (fun pr => decide (pr.2.length = first.length))) then
      .error .assertion_failure
    else
      .ok (first.length % UINT_RANGE)

/-- The member `RBParameters::operator+=`: the outcome and `*this` as the call leaves it. -/
def operator_plus_assign (debug : Bool) (self rhs : RBParameters Real) :
    Except Error Unit × RBParameters Real :=
  match self.n_steps debug, rhs.n_steps debug with
  | .error e, _ => (.error e, self)
  | .ok _, .error e => (.error e, self)
  | .ok a, .ok b =>
    if a ≠ b then (.error .error_msg, self)
    else
      (.ok (),
        { self with
          _parameters :=
            rhs._parameters.foldl
              (fun m pr => StdMap.assign (StdMap.subscript m pr.1).1 pr.1 pr.2) self._parameters
          _extra_parameters :=
            rhs._extra_parameters.foldl
              (fun m pr => StdMap.assign (StdMap.subscript m pr.1).1 pr.1 pr.2)
              self._extra_parameters })

/-- The member `RBParameters::erase_parameter`. -/
def erase_parameter (self : RBParameters Real) (param_name : String) : RBParameters Real :=
  { self with _parameters := StdMap.erase self._parameters param_name }

/-- The member `RBParameters::erase_extra_parameter`. -/
def erase_extra_parameter (self : RBParameters Real) (param_name : String) :
    RBParameters Real :=
  { self with _extra_parameters := StdMap.erase self._extra_parameters param_name }

/-- The operator `==` of `std::vector<Real>`: equal sizes and elements that compare equal
with the operator `==` of `Real`, one by one. -/
def vector_eq [BEq Real] : List Real → List Real → Bool
  | [], [] => true
  | a :: as, b :: bs => (a == b) && vector_eq as bs
  | _, _ => false

/-- The operator `==` of `std::map<std::string, std::vector<Real>>`: equal sizes and entries
that compare equal, key with key and vector with vector, in key order. -/
def map_eq [BEq Real] : StdMap String (List Real) → StdMap String (List Real) → Bool
  | [], [] => true
  | (k1, v1) :: rest1, (k2, v2) :: rest2 =>
    (decide (k1 = k2) && vector_eq v1 v2) && map_eq rest1 rest2
  | _, _ => false

/-- The member `RBParameters::operator==`. -/
def operator_eq [BEq Real] (self rhs : RBParameters Real) : Bool :=
  map_eq self._parameters rhs._parameters &&
    map_eq self._extra_parameters rhs._extra_parameters

/-- The member `RBParameters::operator!=`. -/
def operator_ne [BEq Real] (self rhs : RBParameters Real) : Bool :=
  !(operator_eq self rhs)

end RBParameters

/-! ## `RBTheta` and `RBThetaExpansion` -/

/-- The unchecked subscript `vec[i]` of a `std::vector`; it has no meaning past the end. -/
def vector_subscript {T : Type} (vec : List T) (i : Nat) : Except Error T :=
  match vec[i]? with
  | some x => .ok x
  | none => .error .undefined_behavior

/-- Modelled from the spec: the class `RBTheta` of `rb_theta.h`, which is not part of the sources
at hand. A theta-function handle is a capability that, given a parameter set, produces a
scalar. -/
structure RBTheta (Real Number : Type) where
  /-- The virtual member `RBTheta::evaluate`. -/
  evaluate : RBParameters Real → Number

/-- The data members of `RBThetaExpansion`. A stored `RBTheta *` is `none` when it is null. -/
structure RBThetaExpansion (Real Number : Type) where
  /-- Theta functions of the operator. -/
  _A_theta_vector : List (Option (RBTheta Real Number))
  /-- Theta functions of the right-hand side. -/
  _F_theta_vector : List (Option (RBTheta Real Number))
  /-- Theta functions of each output. -/
  _output_theta_vector : List (List (Option (RBTheta Real Number)))

namespace RBThetaExpansion

variable {Real Number : Type}

/-- A freshly constructed expansion: the three vectors are empty. -/
def empty : RBThetaExpansion Real Number :=
  { _A_theta_vector := [], _F_theta_vector := [], _output_theta_vector := [] }

/-- The member `RBThetaExpansion::get_n_A_terms`. -/
def get_n_A_terms (self : RBThetaExpansion Real Number) : Nat :=
  self._A_theta_vector.length

/-- The member `RBThetaExpansion::get_n_F_terms`. -/
def get_n_F_terms (self : RBThetaExpansion Real Number) : Nat :=
  self._F_theta_vector.length

/-- The member `RBThetaExpansion::get_n_outputs`. -/
def get_n_outputs (self : RBThetaExpansion Real Number) : Nat :=
  self._output_theta_vector.length

/-- The member `RBThetaExpansion::output_index_1D`. -/
def output_index_1D (self : RBThetaExpansion Real Number) (n q_l : Nat) : Except Error Nat :=
  (List.range n).foldlM
    (fun index i =>
      match vector_subscript self._output_theta_vector i with
      | .error e => .error e
      | .ok vec => .ok ((index + vec.length) % UINT_RANGE))
    q_l

/-- The member `RBThetaExpansion::attach_A_theta`; `asserts` says whether `libmesh_assert` is
checked. -/
def attach_A_theta (asserts : Bool) (self : RBThetaExpansion Real Number)
    (theta_q_a : Option (RBTheta Real Number)) :
    Except Error Unit × RBThetaExpansion Real Number :=
  if asserts && theta_q_a.isNone then (.error .assertion_failure, self)
  else (.ok (), { self with _A_theta_vector := self._A_theta_vector ++ [theta_q_a] })

/-- The member `RBThetaExpansion::attach_multiple_A_theta`. -/
def attach_multiple_A_theta (asserts : Bool) (self : RBThetaExpansion Real Number)
    (theta_q_a : List (Option (RBTheta Real Number))) :
    Except Error Unit × RBThetaExpansion Real Number :=
  match theta_q_a with
  | [] => (.ok (), self)
  | theta :: rest =>
    if asserts && theta.isNone then (.error .assertion_failure, self)
    else
      attach_multiple_A_theta asserts
        { self with _A_theta_vector := self._A_theta_vector ++ [theta] } rest

/-- The member `RBThetaExpansion::attach_F_theta`. -/
def attach_F_theta (asserts : Bool) (self : RBThetaExpansion Real Number)
    (theta_q_f : Option (RBTheta Real Number)) :
    Except Error Unit × RBThetaExpansion Real Number :=
  if asserts && theta_q_f.isNone then (.error .assertion_failure, self)
  else (.ok (), { self with _F_theta_vector := self._F_theta_vector ++ [theta_q_f] })

/-- The member `RBThetaExpansion::attach_multiple_F_theta`. -/
def attach_multiple_F_theta (asserts : Bool) (self : RBThetaExpansion Real Number)
    (theta_q_f : List (Option (RBTheta Real Number))) :
    Except Error Unit × RBThetaExpansion Real Number :=
  match theta_q_f with
  | [] => (.ok (), self)
  | theta :: rest =>
    if asserts && theta.isNone then (.error .assertion_failure, self)
    else
      attach_multiple_F_theta asserts
        { self with _F_theta_vector := self._F_theta_vector ++ [theta] } rest

/-- The member `RBThetaExpansion::attach_output_theta(std::vector<RBTheta *>)`. -/
def attach_output_theta_vector (self : RBThetaExpansion Real Number)
    (theta_q_l : List (Option (RBTheta Real Number))) : RBThetaExpansion Real Number :=
  { self with _output_theta_vector := self._output_theta_vector ++ [theta_q_l] }

/-- The member `RBThetaExpansion::attach_output_theta(std::vector<std::unique_ptr<RBTheta>> &)`:
the raw pointers are collected one by one, then pushed as a new output. -/
def attach_output_theta_unique (self : RBThetaExpansion Real Number)
    (theta_q_l : List (Option (RBTheta Real Number))) : RBThetaExpansion Real Number :=
  let theta_q_l_ptr := theta_q_l.foldl (fun acc theta => acc ++ [theta]) []
  { self with _output_theta_vector := self._output_theta_vector ++ [theta_q_l_ptr] }

/-- The member `RBThetaExpansion::attach_output_theta(RBTheta *)`. -/
def attach_output_theta (asserts : Bool) (self : RBThetaExpansion Real Number)
    (theta_q_l : Option (RBTheta Real Number)) :
    Except Error Unit × RBThetaExpansion Real Number :=
  if asserts && theta_q_l.isNone then (.error .assertion_failure, self)
  else
    let theta_l_vector := (List.replicate 1 none).set 0 theta_q_l
    (.ok (), attach_output_theta_vector self theta_l_vector)

/-- The theta function of the scenario of C8 that reads parameter "k". -/
def scenario_theta0 : RBTheta ℚ ℚ :=
  ⟨fun mu => RBParameters.get_value_default mu "k" 0⟩

end RBThetaExpansion

/-! ## Reachable parameter sets -/

namespace RBParameters

variable {Real : Type}

/-- The parameter sets a caller can build: the two constructors, closed under the public
members that write. A call of `set_value` or `set_extra_value` that returns normally always
counts; one that ends in `std::length_error` counts when `catching` is true, that is when the
caller goes on with the object after catching the exception. A failed `operator+=` leaves the
object as it was. -/
inductive Reachable [Zero Real] (max_size : Nat) (catching : Bool) :
    RBParameters Real → Prop where
  | default_constructor : Reachable max_size catching empty
  | map_constructor (parameter_map : StdMap String Real) :
      Reachable max_size catching (from_map parameter_map)
  | clear (self : RBParameters Real) :
      Reachable max_size catching self → Reachable max_size catching (clear self)
  | set_value_legacy (self : RBParameters Real) (param_name : String) (value : Real) :
      Reachable max_size catching self →
        Reachable max_size catching (set_value_legacy self param_name value)
  | set_value (self : RBParameters Real) (param_name : String) (index : Nat) (value : Real) :
      Reachable max_size catching self →
        ((set_value max_size self param_name index value).1 = .ok () ∨
          (catching = true ∧
            (set_value max_size self param_name index value).1 = .error .length_error)) →
        Reachable max_size catching (set_value max_size self param_name index value).2
  | set_extra_value_legacy (self : RBParameters Real) (param_name : String) (value : Real) :
      Reachable max_size catching self →
        Reachable max_size catching (set_extra_value_legacy self param_name value)
  | set_extra_value (self : RBParameters Real) (param_name : String) (index : Nat)
      (value : Real) :
      Reachable max_size catching self →
        ((set_extra_value max_size self param_name index value).1 = .ok () ∨
          (catching = true ∧
            (set_extra_value max_size self param_name index value).1 =
              .error .length_error)) →
        Reachable max_size catching (set_extra_value max_size self param_name index value).2
  | push_back_value (self : RBParameters Real) (param_name : String) (value : Real) :
      Reachable max_size catching self →
        Reachable max_size catching (push_back_value self param_name value)
  | push_back_extra_value (self : RBParameters Real) (param_name : String) (value : Real) :
      Reachable max_size catching self →
        Reachable max_size catching (push_back_extra_value self param_name value)
  | erase_parameter (self : RBParameters Real) (param_name : String) :
      Reachable max_size catching self →
        Reachable max_size catching (erase_parameter self param_name)
  | erase_extra_parameter (self : RBParameters Real) (param_name : String) :
      Reachable max_size catching self →
        Reachable max_size catching (erase_extra_parameter self param_name)
  | set_n_steps (self : RBParameters Real) (n_steps : Nat) :
      Reachable max_size catching self →
        Reachable max_size catching (set_n_steps self n_steps)
  | operator_plus_assign (debug : Bool) (self rhs : RBParameters Real) :
      Reachable max_size catching self → Reachable max_size catching rhs →
        Reachable max_size catching (operator_plus_assign debug self rhs).2

/-- A value of an IEEE floating-point `Real` as far as `==` tells values apart: a number, or
not a number. -/
inductive IEEEReal where
  | number (q : ℚ)
  | nan
  deriving DecidableEq

/-- The operator `==` of an IEEE floating-point type: a NaN compares unequal to every value,
itself included. -/
instance : BEq IEEEReal where
  beq
    | .number a, .number b => decide (a = b)
    | _, _ => false

/-- The value-initialised `Real()`. -/
instance : Zero IEEEReal where
  zero := .number 0

/-- The parameter set `set_value("a", 0, NaN)` leaves when called on an empty one. -/
def nan_parameter : RBParameters IEEEReal :=
  { _n_steps := 1, _parameters := [("a", [IEEEReal.nan])], _extra_parameters := [] }

/-- A parameter set that stores `len` steps of value 0 under `param_name` and nothing else,
as `set_value(param_name, len - 1, 0)` leaves it on a default-constructed set. -/
def one_parameter (param_name : String) (len : Nat) : RBParameters ℚ :=
  { _n_steps := 1, _parameters := [(param_name, List.replicate len 0)],
    _extra_parameters := [] }

end RBParameters

/-! ## `Utility` -/

namespace Utility

variable {T : Type}

/-- The loop of `Utility::is_sorted`: `prev` is the element just left of the rest of the
range. -/
def is_sorted_loop [LT T] [DecidableRel (fun a b : T => a < b)] (prev : T) : List T → Bool
  | [] => true
  | first :: rest => if first < prev then false else is_sorted_loop first rest

/-- The function `Utility::is_sorted`; the range `[first, last)` is the list of its
elements. -/
def is_sorted [LT T] [DecidableRel (fun a b : T => a < b)] : List T → Bool
  | [] => true
  | first :: rest => is_sorted_loop first rest

/-- The loop of `std::lower_bound(first, last, value, comp)` of the C++ standard library, as
the bisection the standard's complexity bound prescribes: `first` is an index into the range
and `len` the number of elements still in question. -/
def lower_bound_loop (comp : T → T → Bool) (vec : List T) (value : T) (first len : Nat) :
    Except Error Nat :=
  if len > 0 then
    match vector_subscript vec (first + len / 2) with
    | .error e => .error e
    | .ok x =>
      if comp x value then
        lower_bound_loop comp vec value (first + len / 2 + 1) (len - len / 2 - 1)
      else
        lower_bound_loop comp vec value first (len / 2)
  else .ok first
termination_by len
decreasing_by
  all_goals simp_wf
  all_goals omega

/-- The call `std::lower_bound(first, last, value, comp)`; iterators are indices into the
range and `last` is its length. -/
def lower_bound (comp : T → T → Bool) (vec : List T) (value : T) : Except Error Nat :=
  lower_bound_loop comp vec value 0 vec.length

/-- The function `Utility::binary_find(first, last, value, comp)`. -/
def binary_find_comp (comp : T → T → Bool) (vec : List T) (value : T) : Except Error Nat :=
  match lower_bound comp vec value with
  | .error e => .error e
  | .ok it =>
    if it = vec.length then .ok vec.length
    else
      match vector_subscript vec it with
      | .error e => .error e
      | .ok x => if comp value x then .ok vec.length else .ok it

/-- The function `Utility::binary_find(first, last, value)`, which compares with `<`. -/
def binary_find [LT T] [DecidableRel (fun a b : T => a < b)] (vec : List T) (value : T) :
    Except Error Nat :=
  binary_find_comp (fun a b => decide (a < b)) vec value

/-- The function `Utility::factorial`. -/
def factorial (n : Nat) : Nat :=
  if n = 0 then 1
  else
    (List.range' 1 (n - 1)).foldl
      (fun factorial_n i => (factorial_n * ((i + 1) % UINT_RANGE)) % UINT_RANGE) 1

/-- One turn of the loop of `Utility::binomial` for an unsigned integer type `T` with
`T_RANGE` values: `ret *= (n - i); ret /= (i + 1);`. -/
def binomial_step (T_RANGE n : Nat) (ret i : Nat) : Nat :=
  ((ret * ((n + T_RANGE - i) % T_RANGE)) % T_RANGE) / ((i + 1) % T_RANGE)

/-- The function `Utility::binomial` for an unsigned integer type `T` with `T_RANGE` values. -/
def binomial (T_RANGE n k : Nat) : Nat :=
  let k1 := if k > (n + T_RANGE - k) % T_RANGE then (n + T_RANGE - k) % T_RANGE else k
  (List.range k1).foldl (binomial_step T_RANGE n) 1

end Utility

namespace RBThetaExpansion

end RBThetaExpansion

/-! ## Lemmas on `std::map` -/

namespace StdMap

variable {K V : Type} [LinearOrder K]

theorem find_assign_self (m : StdMap K V) (key : K) (v : V) :
    find (assign m key v) key = some v := by
  induction m with
  | nil => simp [assign, find]
  | cons hd rest ih =>
    obtain ⟨k, w⟩ := hd
    unfold assign
    by_cases h1 : key < k
    · simp [h1, find]
    · by_cases h2 : k < key
      · simp [h1, h2, find, ih, ne_of_lt h2]
      · simp [h1, h2, find]

theorem find_assign_ne (m : StdMap K V) (key j : K) (v : V) (hne : j ≠ key) :
    find (assign m key v) j = find m j := by
  induction m with
  | nil => simp [assign, find, Ne.symm hne]
  | cons hd rest ih =>
    obtain ⟨k, w⟩ := hd
    unfold assign
    by_cases h1 : key < k
    · simp [h1, find, Ne.symm hne]
    · by_cases h2 : k < key
      · simp [h1, h2, find, ih]
      · have hk : k = key := le_antisymm (not_lt.mp h1) (not_lt.mp h2)
        simp [h1, h2, find, Ne.symm hne, hk]

theorem subscript_snd [Inhabited V] (m : StdMap K V) (key : K) :
    (subscript m key).2 = (find m key).getD default := by
  unfold subscript
  cases h : find m key <;> simp

theorem find_subscript_self [Inhabited V] (m : StdMap K V) (key : K) :
    find (subscript m key).1 key = some ((find m key).getD default) := by
  unfold subscript
  cases h : find m key with
  | none => simp [find_assign_self]
  | some v => simp [h]

theorem find_subscript_ne [Inhabited V] (m : StdMap K V) (key j : K) (hne : j ≠ key) :
    find (subscript m key).1 j = find m j := by
  unfold subscript
  cases h : find m key with
  | none => simp [find_assign_ne _ _ _ _ hne]
  | some v => simp

/-- Writing through `map[key]`: afterwards `key` holds the value written. -/
theorem find_write_self [Inhabited V] (m : StdMap K V) (key : K) (v : V) :
    find (assign (subscript m key).1 key v) key = some v :=
  find_assign_self _ _ _

/-- Writing through `map[key]` leaves every other key as it was. -/
theorem find_write_ne [Inhabited V] (m : StdMap K V) (key j : K) (v : V) (hne : j ≠ key) :
    find (assign (subscript m key).1 key v) j = find m j := by
  rw [find_assign_ne _ _ _ _ hne, find_subscript_ne _ _ _ hne]

theorem assign_lower_bound (m : StdMap K V) (key b : K) (v : V) (hb : b < key)
    (hm : ∀ pr ∈ m, b < pr.1) : ∀ pr ∈ assign m key v, b < pr.1 := by
  induction m with
  | nil => simp [assign, hb]
  | cons hd rest ih =>
    obtain ⟨k, w⟩ := hd
    have hk : b < k := hm (k, w) (by simp)
    have hrest : ∀ pr ∈ rest, b < pr.1 := fun pr hpr => hm pr (by simp [hpr])
    unfold assign
    by_cases h1 : key < k
    · simp only [h1, if_true]
      intro pr hpr
      simp only [List.mem_cons] at hpr
      rcases hpr with rfl | rfl | hpr
      · exact hb
      · exact hk
      · exact hrest pr hpr
    · by_cases h2 : k < key
      · simp only [h1, h2, if_true, if_false]
        intro pr hpr
        simp only [List.mem_cons] at hpr
        rcases hpr with rfl | hpr
        · exact hk
        · exact ih hrest pr hpr
      · simp only [h1, h2, if_false]
        intro pr hpr
        simp only [List.mem_cons] at hpr
        rcases hpr with rfl | hpr
        · exact hb
        · exact hrest pr hpr

/-- Assignment keeps the keys strictly increasing. -/
theorem WF_assign (m : StdMap K V) (key : K) (v : V) (hm : WF m) : WF (assign m key v) := by
  induction m with
  | nil => simp [assign, WF]
  | cons hd rest ih =>
    obtain ⟨k, w⟩ := hd
    unfold WF at hm ih ⊢
    rw [List.pairwise_cons] at hm
    obtain ⟨hhd, htl⟩ := hm
    unfold assign
    by_cases h1 : key < k
    · simp only [h1, if_true]
      refine List.Pairwise.cons ?_ (List.Pairwise.cons hhd htl)
      intro pr hpr
      simp only [List.mem_cons] at hpr
      rcases hpr with rfl | hpr
      · exact h1
      · exact lt_trans h1 (hhd pr hpr)
    · by_cases h2 : k < key
      · simp only [h1, h2, if_true, if_false]
        exact List.Pairwise.cons (assign_lower_bound rest key k v h2 hhd) (ih htl)
      · have hk : k = key := le_antisymm (not_lt.mp h1) (not_lt.mp h2)
        simp only [h1, h2, if_false]
        refine List.Pairwise.cons ?_ htl
        intro pr hpr
        exact hk ▸ hhd pr hpr

theorem WF_subscript [Inhabited V] (m : StdMap K V) (key : K) (hm : WF m) :
    WF (subscript m key).1 := by
  unfold subscript
  cases h : find m key with
  | none => exact WF_assign _ _ _ hm
  | some v => exact hm

theorem assign_assign (m : StdMap K V) (key : K) (v w : V) :
    assign (assign m key v) key w = assign m key w := by
  induction m with
  | nil => simp [assign]
  | cons hd rest ih =>
    obtain ⟨k, u⟩ := hd
    by_cases h1 : key < k
    · simp [assign, h1]
    · by_cases h2 : k < key
      · simp [assign, h1, h2, ih]
      · simp [assign, h1, h2]

theorem find_eq_none_of_forall_ne (m : StdMap K V) (key : K) (h : ∀ pr ∈ m, pr.1 ≠ key) :
    find m key = none := by
  induction m with
  | nil => rfl
  | cons hd rest ih =>
    obtain ⟨k, u⟩ := hd
    unfold find
    have hk : k ≠ key := h (k, u) (List.mem_cons_self _ _)
    simp only [hk, if_false]
    exact ih (fun pr hpr => h pr (List.mem_cons_of_mem _ hpr))

theorem mem_of_find_eq_some (m : StdMap K V) (key : K) (v : V) (h : find m key = some v) :
    (key, v) ∈ m := by
  induction m with
  | nil => simp [find] at h
  | cons hd rest ih =>
    obtain ⟨k, u⟩ := hd
    unfold find at h
    by_cases hk : k = key
    · simp only [hk, if_true, Option.some.injEq] at h
      simp [hk, h]
    · simp only [hk, if_false] at h
      exact List.mem_cons_of_mem _ (ih h)

/-- Writing through `map[key]` is the same as inserting or overwriting the entry. -/
theorem write_eq_assign [Inhabited V] (m : StdMap K V) (key : K) (v : V) :
    assign (subscript m key).1 key v = assign m key v := by
  unfold subscript
  cases h : find m key with
  | none => exact assign_assign _ _ _ _
  | some u => rfl

theorem mem_assign (m : StdMap K V) (key : K) (v : V) (pr : K × V)
    (h : pr ∈ assign m key v) : pr = (key, v) ∨ pr ∈ m := by
  induction m with
  | nil =>
    simp only [assign, List.mem_singleton] at h
    exact Or.inl h
  | cons hd rest ih =>
    obtain ⟨k, u⟩ := hd
    unfold assign at h
    by_cases h1 : key < k
    · simp only [h1, if_true, List.mem_cons] at h
      rcases h with h | h | h
      · exact Or.inl h
      · exact Or.inr (by simp [h])
      · exact Or.inr (by simp [h])
    · by_cases h2 : k < key
      · simp only [h1, h2, if_true, if_false, List.mem_cons] at h
        rcases h with h | h
        · exact Or.inr (by simp [h])
        · rcases ih h with h | h
          · exact Or.inl h
          · exact Or.inr (by simp [h])
      · simp only [h1, h2, if_false, List.mem_cons] at h
        rcases h with h | h
        · exact Or.inl h
        · exact Or.inr (by simp [h])

/-- Two well-formed maps with the same lookups are the same list of entries. -/
theorem ext_of_find (m1 m2 : StdMap K V) (h1 : WF m1) (h2 : WF m2)
    (h : ∀ key, find m1 key = find m2 key) : m1 = m2 := by
  induction m1 generalizing m2 with
  | nil =>
    cases m2 with
    | nil => rfl
    | cons hd rest =>
      obtain ⟨k, u⟩ := hd
      have := h k
      simp [find] at this
  | cons hd1 rest1 ih =>
    obtain ⟨k1, u1⟩ := hd1
    cases m2 with
    | nil =>
      have := h k1
      simp [find] at this
    | cons hd2 rest2 =>
      obtain ⟨k2, u2⟩ := hd2
      unfold WF at h1 h2
      rw [List.pairwise_cons] at h1 h2
      obtain ⟨hhd1, htl1⟩ := h1
      obtain ⟨hhd2, htl2⟩ := h2
      have hn1 : ∀ key, key ≤ k1 → find rest1 key = none := fun key hle =>
        find_eq_none_of_forall_ne rest1 key (fun pr hpr => ne_of_gt (lt_of_le_of_lt hle (hhd1 pr hpr)))
      have hn2 : ∀ key, key ≤ k2 → find rest2 key = none := fun key hle =>
        find_eq_none_of_forall_ne rest2 key (fun pr hpr => ne_of_gt (lt_of_le_of_lt hle (hhd2 pr hpr)))
      have hk : k1 = k2 := by
        rcases lt_trichotomy k1 k2 with hlt | heq | hgt
        · have := h k1
          simp [find, ne_of_gt hlt, hn2 k1 (le_of_lt hlt)] at this
        · exact heq
        · have := h k2
          simp [find, ne_of_gt hgt, hn1 k2 (le_of_lt hgt)] at this
      subst hk
      have hu : u1 = u2 := by
        have := h k1
        simpa [find] using this
      subst hu
      have hrest : rest1 = rest2 := by
        apply ih rest2 htl1 htl2
        intro key
        by_cases hkey : k1 = key
        · rw [← hkey, hn1 k1 (le_refl _), hn2 k1 (le_refl _)]
        · have := h key
          simpa [find, hkey] using this
      rw [hrest]

theorem find_erase_self (m : StdMap K V) (key : K) : find (erase m key) key = none := by
  apply find_eq_none_of_forall_ne
  intro pr hpr
  unfold erase at hpr
  simpa using (List.mem_filter.mp hpr).2

theorem find_erase_ne (m : StdMap K V) (key j : K) (hne : j ≠ key) :
    find (erase m key) j = find m j := by
  induction m with
  | nil => rfl
  | cons hd rest ih =>
    obtain ⟨k, u⟩ := hd
    unfold erase at ih ⊢
    by_cases hk : k = key
    · have hkj : ¬ key = j := fun h => hne h.symm
      simp [List.filter_cons, hk, find, ih, hkj]
    · simp [List.filter_cons, hk, find, ih]

theorem erase_of_find_eq_none (m : StdMap K V) (key : K) (h : find m key = none) :
    erase m key = m := by
  induction m with
  | nil => rfl
  | cons hd rest ih =>
    obtain ⟨k, u⟩ := hd
    unfold find at h
    by_cases hk : k = key
    · simp [hk] at h
    · simp only [hk, if_false] at h
      unfold erase at ih ⊢
      simp [List.filter_cons, hk, ih h]

theorem WF_erase (m : StdMap K V) (key : K) (hm : WF m) : WF (erase m key) :=
  List.Pairwise.sublist (List.filter_sublist m) hm

/-- In a well-formed map the first entry has the least key. -/
theorem head_le_of_find (k : K) (v : V) (rest : StdMap K V) (key : K) (w : V)
    (hm : WF ((k, v) :: rest)) (h : find ((k, v) :: rest) key = some w) : k ≤ key := by
  unfold WF at hm
  rw [List.pairwise_cons] at hm
  unfold find at h
  by_cases hk : k = key
  · exact le_of_eq hk
  · simp only [hk, if_false] at h
    exact le_of_lt (hm.1 (key, w) (mem_of_find_eq_some rest key w h))

theorem find_head (k : K) (v : V) (rest : StdMap K V) : find ((k, v) :: rest) k = some v := by
  simp [find]

end StdMap

/-! ## Lemmas on `RBParameters` -/

namespace RBParameters

variable {Real : Type}

/-- A successful `get_step_value` reads element `step` of the vector stored under the name. -/
theorem get_step_value_eq_ok_iff (self : RBParameters Real) (param_name : String) (step : Nat)
    (x : Real) :
    get_step_value self param_name step = .ok x ↔
      ∃ vec, StdMap.find self._parameters param_name = some vec ∧ vec[step]? = some x := by
  unfold get_step_value StdMap.map_find
  cases h : StdMap.find self._parameters param_name with
  | none => simp
  | some vec =>
    by_cases hs : step ≥ vec.length
    · have hnone : vec[step]? = none := List.getElem?_eq_none hs
      simp [hs, hnone]
    · have hlt : step < vec.length := Nat.lt_of_not_ge hs
      simp [hs, List.getElem?_eq_getElem hlt]

theorem vector_resize_length [Zero Real] (vec : List Real) (n : Nat) :
    (vector_resize vec n).length = n := by
  unfold vector_resize
  rw [List.length_append, List.length_take, List.length_replicate]
  omega

/-- A call of `set_value_helper` whose index is within the vector, just past its end, or below
`max_size` returns normally and inserts or overwrites one entry. -/
theorem set_value_helper_of_fits [Zero Real] (max_size : Nat)
    (map : StdMap String (List Real)) (param_name : String) (index : Nat) (value : Real)
    (hfit : index ≤ ((StdMap.find map param_name).getD []).length ∨
      (index + 1 < SIZE_RANGE ∧ index + 1 ≤ max_size)) :
    set_value_helper max_size map param_name index value =
      (.ok (),
        StdMap.assign map param_name
          (if ((StdMap.find map param_name).getD []).length > index then
            ((StdMap.find map param_name).getD []).set index value
          else if ((StdMap.find map param_name).getD []).length = index then
            (StdMap.find map param_name).getD [] ++ [value]
          else
            (vector_resize ((StdMap.find map param_name).getD []) (index + 1)).set index
              value)) := by
  have hsnd : (StdMap.subscript map param_name).2 = (StdMap.find map param_name).getD [] :=
    StdMap.subscript_snd map param_name
  unfold set_value_helper
  simp only [hsnd]
  by_cases h1 : ((StdMap.find map param_name).getD []).length > index
  · rw [if_pos h1, if_pos h1, StdMap.write_eq_assign]
  · by_cases h2 : ((StdMap.find map param_name).getD []).length = index
    · rw [if_neg h1, if_pos h2, if_neg h1, if_pos h2, StdMap.write_eq_assign]
    · have hfit2 : index + 1 < SIZE_RANGE ∧ index + 1 ≤ max_size := by
        rcases hfit with h | h
        · omega
        · exact h
      have hmod : (index + 1) % SIZE_RANGE = index + 1 := Nat.mod_eq_of_lt (by omega)
      rw [if_neg h1, if_neg h2, if_neg h1, if_neg h2, hmod, if_neg (by omega),
        if_pos (by rw [vector_resize_length]; omega), StdMap.write_eq_assign]

/-- A call of `set_value_helper` that has to resize past `max_size` ends in
`std::length_error` and leaves the map as `map[param_name]` made it. -/
theorem set_value_helper_of_too_long [Zero Real] (max_size : Nat)
    (map : StdMap String (List Real)) (param_name : String) (index : Nat) (value : Real)
    (h1 : ((StdMap.find map param_name).getD []).length < index)
    (h2 : (index + 1) % SIZE_RANGE > max_size) :
    set_value_helper max_size map param_name index value =
      (.error .length_error, (StdMap.subscript map param_name).1) := by
  have hsnd : (StdMap.subscript map param_name).2 = (StdMap.find map param_name).getD [] :=
    StdMap.subscript_snd map param_name
  unfold set_value_helper
  simp only [hsnd]
  rw [if_neg (by omega), if_neg (by omega), if_pos h2]

/-- A call of `set_value_helper` returns normally only when its index is within the vector,
just past its end, or such that `index + 1` is a `std::size_t` that `resize` accepts. -/
theorem set_value_helper_fits_of_ok [Zero Real] (max_size : Nat)
    (map : StdMap String (List Real)) (param_name : String) (index : Nat) (value : Real)
    (hok : (set_value_helper max_size map param_name index value).1 = .ok ()) :
    index ≤ ((StdMap.find map param_name).getD []).length ∨
      (index + 1 < SIZE_RANGE ∧ index + 1 ≤ max_size) := by
  have hsnd : (StdMap.subscript map param_name).2 = (StdMap.find map param_name).getD [] :=
    StdMap.subscript_snd map param_name
  unfold set_value_helper at hok
  simp only [hsnd] at hok
  split_ifs at hok with c1 c2 c3 c4
  · exact Or.inl (by omega)
  · exact Or.inl (by omega)
  · right
    rw [vector_resize_length] at c4
    have hpos : 0 < SIZE_RANGE := by unfold SIZE_RANGE; norm_num
    have hlt : index + 1 < SIZE_RANGE := by
      by_contra hge
      have h1 : (index + 1) % SIZE_RANGE ≤ index + 1 - SIZE_RANGE := by
        rw [Nat.mod_eq_sub_mod (by omega)]
        exact Nat.mod_le _ _
      omega
    rw [Nat.mod_eq_of_lt hlt] at c3
    exact ⟨hlt, by omega⟩

/-- The vector `set_value_helper` leaves under `param_name` when it returns normally. -/
theorem find_set_value_helper_self [Zero Real] (max_size : Nat)
    (map : StdMap String (List Real)) (param_name : String) (index : Nat) (value : Real)
    (hfit : index ≤ ((StdMap.find map param_name).getD []).length ∨
      (index + 1 < SIZE_RANGE ∧ index + 1 ≤ max_size)) :
    StdMap.find (set_value_helper max_size map param_name index value).2 param_name =
      some
        (if ((StdMap.find map param_name).getD []).length > index then
          ((StdMap.find map param_name).getD []).set index value
        else if ((StdMap.find map param_name).getD []).length = index then
          (StdMap.find map param_name).getD [] ++ [value]
        else
          (vector_resize ((StdMap.find map param_name).getD []) (index + 1)).set index value) := by
  rw [set_value_helper_of_fits max_size map param_name index value hfit]
  exact StdMap.find_assign_self _ _ _

/-- The member `set_value_helper` leaves the other names alone, however it ends. -/
theorem find_set_value_helper_ne [Zero Real] (max_size : Nat)
    (map : StdMap String (List Real)) (param_name j : String) (index : Nat) (value : Real)
    (hne : j ≠ param_name) :
    StdMap.find (set_value_helper max_size map param_name index value).2 j =
      StdMap.find map j := by
  unfold set_value_helper
  simp only []
  split_ifs
  · exact StdMap.find_write_ne _ _ _ _ hne
  · exact StdMap.find_write_ne _ _ _ _ hne
  · exact StdMap.find_subscript_ne _ _ _ hne
  · exact StdMap.find_write_ne _ _ _ _ hne
  · exact StdMap.find_write_ne _ _ _ _ hne

/-- The vector `push_back_value` leaves under `param_name`. -/
theorem find_push_back_value_self (self : RBParameters Real) (param_name : String)
    (value : Real) :
    StdMap.find (push_back_value self param_name value)._parameters param_name =
      some ((StdMap.find self._parameters param_name).getD [] ++ [value]) := by
  have hsnd := StdMap.subscript_snd self._parameters param_name
  unfold push_back_value
  simp only [hsnd]
  exact StdMap.find_assign_self _ _ _

/-- Pushing a run of values appends the run to what was stored. -/
theorem find_push_back_values (vs : List Real) (self : RBParameters Real) (param_name : String) :
    (StdMap.find (vs.foldl (fun acc v => push_back_value acc param_name v) self)._parameters
        param_name).getD [] =
      (StdMap.find self._parameters param_name).getD [] ++ vs := by
  induction vs generalizing self with
  | nil => simp
  | cons v rest ih =>
    rw [List.foldl_cons, ih, find_push_back_value_self]
    simp

/-- Pushing at least one value leaves an entry under the name. -/
theorem find_push_back_values_isSome (vs : List Real) (self : RBParameters Real)
    (param_name : String) (hvs : vs ≠ []) :
    (StdMap.find (vs.foldl (fun acc v => push_back_value acc param_name v) self)._parameters
        param_name).isSome = true := by
  induction vs generalizing self with
  | nil => exact absurd rfl hvs
  | cons v rest ih =>
    rw [List.foldl_cons]
    by_cases hrest : rest = []
    · subst hrest
      simp [find_push_back_value_self]
    · exact ih _ hrest

/-- The loop of `operator+=` leaves alone every key the right-hand map does not hold. -/
theorem find_merge_of_not_mem (rhs m : StdMap String (List Real)) (key : String)
    (hkey : ∀ pr ∈ rhs, pr.1 ≠ key) :
    StdMap.find
        (rhs.foldl (fun m pr => StdMap.assign (StdMap.subscript m pr.1).1 pr.1 pr.2) m) key =
      StdMap.find m key := by
  induction rhs generalizing m with
  | nil => rfl
  | cons hd rest ih =>
    rw [List.foldl_cons, ih _ (fun pr hpr => hkey pr (List.mem_cons_of_mem _ hpr))]
    exact StdMap.find_write_ne _ _ _ _ (Ne.symm (hkey hd (List.mem_cons_self _ _)))

theorem find_eq_none_iff (m : StdMap String (List Real)) (key : String) :
    StdMap.find m key = none ↔ ∀ pr ∈ m, pr.1 ≠ key := by
  induction m with
  | nil => simp [StdMap.find]
  | cons hd rest ih =>
    obtain ⟨k, w⟩ := hd
    unfold StdMap.find
    by_cases hk : k = key
    · simp [hk]
    · simp [hk, ih]

/-- The loop of `operator+=` copies every entry of a well-formed right-hand map. -/
theorem find_merge_of_find (rhs m : StdMap String (List Real)) (key : String) (vec : List Real)
    (hrhs : StdMap.WF rhs) (hkey : StdMap.find rhs key = some vec) :
    StdMap.find
        (rhs.foldl (fun m pr => StdMap.assign (StdMap.subscript m pr.1).1 pr.1 pr.2) m) key =
      some vec := by
  induction rhs generalizing m with
  | nil => simp [StdMap.find] at hkey
  | cons hd rest ih =>
    obtain ⟨k, w⟩ := hd
    unfold StdMap.WF at hrhs
    rw [List.pairwise_cons] at hrhs
    obtain ⟨hhd, htl⟩ := hrhs
    rw [List.foldl_cons]
    unfold StdMap.find at hkey
    by_cases hk : k = key
    · subst hk
      simp only [if_true, Option.some.injEq] at hkey
      subst hkey
      rw [find_merge_of_not_mem rest _ k (fun pr hpr => ne_of_gt (hhd pr hpr))]
      exact StdMap.find_write_self _ _ _
    · simp only [hk, if_false] at hkey
      exact ih _ htl hkey

/-- The loop of `operator+=` keeps the keys strictly increasing. -/
theorem WF_merge (rhs m : StdMap String (List Real)) (hm : StdMap.WF m) :
    StdMap.WF
      (rhs.foldl (fun m pr => StdMap.assign (StdMap.subscript m pr.1).1 pr.1 pr.2) m) := by
  induction rhs generalizing m with
  | nil => exact hm
  | cons hd rest ih =>
    rw [List.foldl_cons]
    exact ih _ (StdMap.WF_assign _ _ _ (StdMap.WF_subscript _ _ hm))

/-- What `operator+=` does once both step counts are known. -/
theorem operator_plus_assign_of_n_steps (debug : Bool) (A B : RBParameters Real) (a b : Nat)
    (hA : A.n_steps debug = .ok a) (hB : B.n_steps debug = .ok b) :
    operator_plus_assign debug A B =
      if a ≠ b then (.error .error_msg, A)
      else
        (.ok (),
          { A with
            _parameters :=
              B._parameters.foldl
                (fun m pr => StdMap.assign (StdMap.subscript m pr.1).1 pr.1 pr.2) A._parameters
            _extra_parameters :=
              B._extra_parameters.foldl
                (fun m pr => StdMap.assign (StdMap.subscript m pr.1).1 pr.1 pr.2)
                A._extra_parameters }) := by
  unfold operator_plus_assign
  rw [hA, hB]

/-- Without `DEBUG` the member `n_steps` always returns. -/
theorem n_steps_unchecked_returns (A : RBParameters Real) : ∃ n, A.n_steps false = .ok n := by
  cases h : A._parameters with
  | nil => exact ⟨A._n_steps, by simp [n_steps, h]⟩
  | cons hd rest => exact ⟨hd.2.length % UINT_RANGE, by simp [n_steps, h]⟩

/-- The member `has_value` says whether the primary map holds the name. -/
theorem has_value_eq_false_iff (self : RBParameters Real) (param_name : String) :
    has_value self param_name = false ↔ StdMap.find self._parameters param_name = none := by
  unfold has_value StdMap.count
  cases h : StdMap.find self._parameters param_name <;> simp

/-- The member `has_extra_value` says whether the extra map holds the name. -/
theorem has_extra_value_eq_false_iff (self : RBParameters Real) (param_name : String) :
    has_extra_value self param_name = false ↔
      StdMap.find self._extra_parameters param_name = none := by
  unfold has_extra_value StdMap.count
  cases h : StdMap.find self._extra_parameters param_name <;> simp

/-- The loop of the map constructor is the loop of `operator+=` over one-element vectors. -/
theorem from_map_parameters (parameter_map : StdMap String Real) :
    (from_map parameter_map)._parameters =
      (parameter_map.map (fun pr => (pr.1, [pr.2]))).foldl
        (fun m pr => StdMap.assign (StdMap.subscript m pr.1).1 pr.1 pr.2) [] := by
  unfold from_map
  rw [List.foldl_map]

theorem find_map_singleton (parameter_map : StdMap String Real) (key : String) :
    StdMap.find (parameter_map.map (fun pr => (pr.1, [pr.2]))) key =
      (StdMap.find parameter_map key).map (fun val => [val]) := by
  induction parameter_map with
  | nil => rfl
  | cons hd rest ih =>
    obtain ⟨k, val⟩ := hd
    simp only [List.map_cons, StdMap.find]
    by_cases hk : k = key
    · simp [hk]
    · simp [hk, ih]

/-- Every entry the loop of `operator+=` leaves was in one of the two maps. -/
theorem mem_merge (rhs m : StdMap String (List Real)) (pr : String × List Real)
    (h : pr ∈ rhs.foldl (fun m pr => StdMap.assign (StdMap.subscript m pr.1).1 pr.1 pr.2) m) :
    pr ∈ m ∨ pr ∈ rhs := by
  induction rhs generalizing m with
  | nil => exact Or.inl h
  | cons hd rest ih =>
    rw [List.foldl_cons, StdMap.write_eq_assign] at h
    rcases ih _ h with h | h
    · rcases StdMap.mem_assign _ _ _ _ h with h | h
      · exact Or.inr (by simp [h])
      · exact Or.inl h
    · exact Or.inr (List.mem_cons_of_mem _ h)

/-- The map constructor stores one-element vectors only. -/
theorem from_map_lengths (parameter_map : StdMap String Real) (pr : String × List Real)
    (h : pr ∈ (from_map parameter_map)._parameters) : pr.2.length = 1 := by
  rw [from_map_parameters] at h
  rcases mem_merge _ _ _ h with h | h
  · simp at h
  · obtain ⟨src, _, hsrc⟩ := List.mem_map.mp h
    rw [← hsrc]
    rfl

theorem n_steps_from_map (debug : Bool) (parameter_map : StdMap String Real) :
    n_steps debug (from_map parameter_map) = .ok 1 := by
  have hlen := from_map_lengths parameter_map
  unfold n_steps
  cases hp : (from_map parameter_map)._parameters with
  | nil => rfl
  | cons hd rest =>
    obtain ⟨k, first⟩ := hd
    rw [hp] at hlen
    have hfirst : first.length = 1 := hlen (k, first) (List.mem_cons_self _ _)
    have hall : (((k, first) :: rest).all
        (fun pr => decide (pr.2.length = first.length))) = true := by
      rw [List.all_eq_true]
      intro pr hpr
      simp [hlen pr hpr, hfirst]
    simp only [hall, Bool.not_true, Bool.and_false]
    simp [hfirst, UINT_RANGE]

/-- The defaulted accessor in terms of the throwing one. -/
theorem get_step_value_default_eq (self : RBParameters Real) (param_name : String) (step : Nat)
    (default_val : Real) :
    get_step_value_default self param_name step default_val =
      match get_step_value self param_name step with
      | .ok x => x
      | .error _ => default_val := by
  unfold get_step_value_default get_step_value StdMap.map_find
  cases h : StdMap.find self._parameters param_name with
  | none => rfl
  | some vec =>
    by_cases hs : step < vec.length
    · have hge : ¬ step ≥ vec.length := Nat.not_le.mpr hs
      simp [hs, hge]
    · have hge : step ≥ vec.length := Nat.le_of_not_lt hs
      simp [hs, hge]

/-- The vector `set_value_helper` writes in place of `vec`. -/
theorem written_vector_spec [Zero Real] (vec : List Real) (index : Nat) (value : Real) :
    ∀ new_vec : List Real,
      new_vec =
          (if vec.length > index then vec.set index value
          else if vec.length = index then vec ++ [value]
          else (vector_resize vec (index + 1)).set index value) →
        new_vec.length = max vec.length (index + 1) ∧
          new_vec[index]? = some value ∧
          (∀ j, j ≠ index → j < vec.length → new_vec[j]? = vec[j]?) ∧
          (∀ j, vec.length ≤ j → j < index → new_vec[j]? = some 0) := by
  intro new_vec hnew
  by_cases h1 : vec.length > index
  · rw [if_pos h1] at hnew
    subst hnew
    refine ⟨?_, ?_, ?_, ?_⟩
    · rw [List.length_set]
      omega
    · exact List.getElem?_set_self h1
    · intro j hj _
      exact List.getElem?_set_ne (Ne.symm hj)
    · intro j h2 h3
      omega
  · by_cases h2 : vec.length = index
    · rw [if_neg h1, if_pos h2] at hnew
      subst hnew
      refine ⟨?_, ?_, ?_, ?_⟩
      · rw [List.length_append]
        simp only [List.length_singleton]
        omega
      · rw [List.getElem?_append_right (by omega)]
        simp [h2]
      · intro j _ hj
        exact List.getElem?_append_left hj
      · intro j h3 h4
        omega
    · rw [if_neg h1, if_neg h2] at hnew
      subst hnew
      have hlt : vec.length < index := by omega
      have htake : vec.take (index + 1) = vec := List.take_of_length_le (by omega)
      unfold vector_resize
      rw [htake]
      refine ⟨?_, ?_, ?_, ?_⟩
      · rw [List.length_set, List.length_append, List.length_replicate]
        omega
      · apply List.getElem?_set_self
        rw [List.length_append, List.length_replicate]
        omega
      · intro j hj hjl
        rw [List.getElem?_set_ne (Ne.symm hj)]
        exact List.getElem?_append_left hjl
      · intro j h3 h4
        rw [List.getElem?_set_ne (by omega), List.getElem?_append_right h3]
        exact List.getElem?_replicate_of_lt (by omega)

/-- Every entry a write through `map[key]` leaves was there before or is the one written. -/
theorem mem_write (map : StdMap String (List Real)) (param_name : String) (vec : List Real)
    (pr : String × List Real)
    (h : pr ∈ StdMap.assign (StdMap.subscript map param_name).1 param_name vec) :
    pr ∈ map ∨ pr.2 = vec := by
  rw [StdMap.write_eq_assign] at h
  rcases StdMap.mem_assign _ _ _ _ h with h | h
  · exact Or.inr (by rw [h])
  · exact Or.inl h

/-- What `set_value_helper` leaves in the map it is given when it returns normally. -/
theorem set_value_helper_effect [Zero Real] (max_size : Nat)
    (map : StdMap String (List Real)) (param_name : String) (index : Nat) (value : Real)
    (hfit : index ≤ ((StdMap.find map param_name).getD []).length ∨
      (index + 1 < SIZE_RANGE ∧ index + 1 ≤ max_size)) :
    (set_value_helper max_size map param_name index value).1 = .ok () ∧
      (∃ new_vec,
        StdMap.find (set_value_helper max_size map param_name index value).2 param_name =
          some new_vec ∧
        new_vec.length = max ((StdMap.find map param_name).getD []).length (index + 1) ∧
        new_vec[index]? = some value ∧
        (∀ j, j ≠ index → j < ((StdMap.find map param_name).getD []).length →
          new_vec[j]? = ((StdMap.find map param_name).getD [])[j]?) ∧
        (∀ j, ((StdMap.find map param_name).getD []).length ≤ j → j < index →
          new_vec[j]? = some 0)) ∧
      (∀ other, other ≠ param_name →
        StdMap.find (set_value_helper max_size map param_name index value).2 other =
          StdMap.find map other) :=
  ⟨by rw [set_value_helper_of_fits max_size map param_name index value hfit],
    ⟨_, find_set_value_helper_self max_size map param_name index value hfit,
      written_vector_spec _ index value _ rfl⟩,
    fun other hne => find_set_value_helper_ne max_size map param_name other index value hne⟩

/-- What `set_value_helper` leaves in the map when `resize` throws: the name is mapped to the
vector it had, the empty one if it had none, and every other name is as before. -/
theorem set_value_helper_throw_effect [Zero Real] (max_size : Nat)
    (map : StdMap String (List Real)) (param_name : String) (index : Nat) (value : Real)
    (h1 : ((StdMap.find map param_name).getD []).length < index)
    (h2 : (index + 1) % SIZE_RANGE > max_size) :
    (set_value_helper max_size map param_name index value).1 = .error .length_error ∧
      StdMap.find (set_value_helper max_size map param_name index value).2 param_name =
        some ((StdMap.find map param_name).getD []) ∧
      (∀ other, other ≠ param_name →
        StdMap.find (set_value_helper max_size map param_name index value).2 other =
          StdMap.find map other) := by
  rw [set_value_helper_of_too_long max_size map param_name index value h1 h2]
  exact ⟨rfl, StdMap.find_subscript_self _ _,
    fun other hne => StdMap.find_subscript_ne _ _ _ hne⟩

/-- Every entry a normally returning `set_value_helper` leaves was there before or holds a
non-empty vector. -/
theorem mem_set_value_helper [Zero Real] (max_size : Nat) (map : StdMap String (List Real))
    (param_name : String) (index : Nat) (value : Real) (pr : String × List Real)
    (hok : (set_value_helper max_size map param_name index value).1 = .ok ())
    (h : pr ∈ (set_value_helper max_size map param_name index value).2) :
    pr ∈ map ∨ 1 ≤ pr.2.length := by
  unfold set_value_helper at hok h
  simp only [] at hok h
  split_ifs at hok h with c1 c2 c3 c4
  · rcases mem_write _ _ _ _ h with h | h
    · exact Or.inl h
    · right
      rw [h, List.length_set]
      omega
  · rcases mem_write _ _ _ _ h with h | h
    · exact Or.inl h
    · right
      rw [h]
      simp
  · rcases mem_write _ _ _ _ h with h | h
    · exact Or.inl h
    · right
      rw [h, List.length_set]
      omega

/-- The entries `push_back_value` leaves in the primary map. -/
theorem mem_push_back_value (self : RBParameters Real) (param_name : String) (value : Real)
    (pr : String × List Real) (h : pr ∈ (push_back_value self param_name value)._parameters) :
    pr ∈ self._parameters ∨ 1 ≤ pr.2.length := by
  unfold push_back_value at h
  rcases mem_write _ _ _ _ h with h | h
  · exact Or.inl h
  · right
    rw [h]
    simp

/-- The entries `push_back_extra_value` leaves in the extra map. -/
theorem mem_push_back_extra_value (self : RBParameters Real) (param_name : String)
    (value : Real) (pr : String × List Real)
    (h : pr ∈ (push_back_extra_value self param_name value)._extra_parameters) :
    pr ∈ self._extra_parameters ∨ 1 ≤ pr.2.length := by
  unfold push_back_extra_value at h
  rcases mem_write _ _ _ _ h with h | h
  · exact Or.inl h
  · right
    rw [h]
    simp

/-- The two ways `operator+=` can leave `*this`. -/
theorem operator_plus_assign_cases (debug : Bool) (A B : RBParameters Real) :
    ((operator_plus_assign debug A B).1 ≠ .ok () ∧ (operator_plus_assign debug A B).2 = A) ∨
      ((operator_plus_assign debug A B).1 = .ok () ∧
        (∃ n, A.n_steps debug = .ok n ∧ B.n_steps debug = .ok n) ∧
        (operator_plus_assign debug A B).2 =
          { A with
            _parameters :=
              B._parameters.foldl
                (fun m pr => StdMap.assign (StdMap.subscript m pr.1).1 pr.1 pr.2) A._parameters
            _extra_parameters :=
              B._extra_parameters.foldl
                (fun m pr => StdMap.assign (StdMap.subscript m pr.1).1 pr.1 pr.2)
                A._extra_parameters }) := by
  cases hA : A.n_steps debug with
  | error e => simp [operator_plus_assign, hA]
  | ok a =>
    cases hB : B.n_steps debug with
    | error e => simp [operator_plus_assign, hA, hB]
    | ok b =>
      rw [operator_plus_assign_of_n_steps debug A B a b hA hB]
      by_cases hab : a = b
      · subst hab
        simp
      · simp [hab]

/-- Every parameter set a caller can build by calls that return normally stores non-empty
vectors only. -/
theorem reachable_lengths [Zero Real] (max_size : Nat) (self : RBParameters Real)
    (h : Reachable max_size false self) :
    (∀ pr ∈ self._parameters, 1 ≤ pr.2.length) ∧
      (∀ pr ∈ self._extra_parameters, 1 ≤ pr.2.length) := by
  induction h with
  | default_constructor => simp [empty]
  | map_constructor parameter_map =>
    refine ⟨fun pr hpr => ?_, ?_⟩
    · rw [from_map_lengths parameter_map pr hpr]
    · simp [from_map]
  | clear self _ _ => simp [clear]
  | set_value_legacy self param_name value _ ih =>
    refine ⟨fun pr hpr => ?_, ih.2⟩
    rcases mem_write _ _ _ _ hpr with h | h
    · exact ih.1 pr h
    · rw [h]
      simp
  | set_value self param_name index value _ hout ih =>
    have hok : (set_value_helper max_size self._parameters param_name index value).1 =
        .ok () := by
      rcases hout with h | ⟨h, _⟩
      · exact h
      · exact absurd h (by decide)
    refine ⟨fun pr hpr => ?_, ih.2⟩
    rcases mem_set_value_helper max_size _ _ _ _ _ hok hpr with h | h
    · exact ih.1 pr h
    · exact h
  | set_extra_value_legacy self param_name value _ ih =>
    refine ⟨ih.1, fun pr hpr => ?_⟩
    rcases mem_write _ _ _ _ hpr with h | h
    · exact ih.2 pr h
    · rw [h]
      simp
  | set_extra_value self param_name index value _ hout ih =>
    have hok : (set_value_helper max_size self._extra_parameters param_name index value).1 =
        .ok () := by
      rcases hout with h | ⟨h, _⟩
      · exact h
      · exact absurd h (by decide)
    refine ⟨ih.1, fun pr hpr => ?_⟩
    rcases mem_set_value_helper max_size _ _ _ _ _ hok hpr with h | h
    · exact ih.2 pr h
    · exact h
  | push_back_value self param_name value _ ih =>
    refine ⟨fun pr hpr => ?_, ?_⟩
    · rcases mem_push_back_value _ _ _ _ hpr with h | h
      · exact ih.1 pr h
      · exact h
    · exact ih.2
  | push_back_extra_value self param_name value _ ih =>
    refine ⟨?_, fun pr hpr => ?_⟩
    · exact ih.1
    · rcases mem_push_back_extra_value _ _ _ _ hpr with h | h
      · exact ih.2 pr h
      · exact h
  | erase_parameter self param_name _ ih =>
    refine ⟨fun pr hpr => ?_, ih.2⟩
    exact ih.1 pr (List.mem_filter.mp hpr).1
  | erase_extra_parameter self param_name _ ih =>
    refine ⟨ih.1, fun pr hpr => ?_⟩
    exact ih.2 pr (List.mem_filter.mp hpr).1
  | set_n_steps self n_steps _ ih => exact ih
  | operator_plus_assign debug self rhs _ _ ihs ihr =>
    rcases operator_plus_assign_cases debug self rhs with ⟨_, h⟩ | ⟨_, _, h⟩
    · rw [h]
      exact ihs
    · rw [h]
      refine ⟨fun pr hpr => ?_, fun pr hpr => ?_⟩
      · rcases mem_merge _ _ _ hpr with h | h
        · exact ihs.1 pr h
        · exact ihr.1 pr h
      · rcases mem_merge _ _ _ hpr with h | h
        · exact ihs.2 pr h
        · exact ihr.2 pr h

/-- What a returned `n_steps()` says about a set that stores a primary parameter. -/
theorem n_steps_cons (debug : Bool) (self : RBParameters Real) (hd : String × List Real)
    (rest : StdMap String (List Real)) (hp : self._parameters = hd :: rest) (n : Nat)
    (h : n_steps debug self = .ok n) :
    n = hd.2.length % UINT_RANGE ∧
      (debug = true → ∀ pr ∈ self._parameters, pr.2.length = hd.2.length) := by
  obtain ⟨k, first⟩ := hd
  unfold n_steps at h
  rw [hp] at h
  simp only [] at h
  split at h
  · exact Except.noConfusion h
  · rename_i hcheck
    simp only [Except.ok.injEq] at h
    refine ⟨h.symm, ?_⟩
    intro hdebug
    subst hdebug
    simp only [Bool.true_and, Bool.not_eq_true', Bool.not_eq_false] at hcheck
    rw [List.all_eq_true] at hcheck
    intro pr hpr
    rw [hp] at hpr
    have := hcheck pr hpr
    simp only [decide_eq_true_eq] at this
    exact this

/-- The value of `n_steps()` on a set that stores a primary parameter. -/
theorem n_steps_eq_ok_of_cons (debug : Bool) (self : RBParameters Real)
    (hd : String × List Real) (rest : StdMap String (List Real))
    (hp : self._parameters = hd :: rest)
    (hall : debug = true → ∀ pr ∈ self._parameters, pr.2.length = hd.2.length) :
    n_steps debug self = .ok (hd.2.length % UINT_RANGE) := by
  obtain ⟨k, first⟩ := hd
  unfold n_steps
  rw [hp]
  simp only []
  cases debug with
  | false => simp
  | true =>
    have hcheck : (((k, first) :: rest).all
        (fun pr => decide (pr.2.length = first.length))) = true := by
      rw [List.all_eq_true]
      intro pr hpr
      rw [← hp] at hpr
      simp [hall rfl pr hpr]
    simp [hcheck]

/-- The member `n_steps` reads `_parameters` and `_n_steps` only. -/
theorem n_steps_congr (debug : Bool) (s t : RBParameters Real)
    (hp : s._parameters = t._parameters) (hn : s._n_steps = t._n_steps) :
    n_steps debug s = n_steps debug t := by
  unfold n_steps
  rw [hp, hn]

/-- After the loop of `operator+=` over two well-formed maps, the first entry of the result
is as long as the first entry of the one or of the other, which is what `n_steps()` saw. -/
theorem merge_head_length (A B : RBParameters Real) (debug : Bool) (n : Nat)
    (hAw : StdMap.WF A._parameters) (hBw : StdMap.WF B._parameters)
    (hA : n_steps debug A = .ok n) (hB : n_steps debug B = .ok n)
    (hdB : String × List Real) (rb : StdMap String (List Real))
    (hBp : B._parameters = hdB :: rb) :
    ∃ hdM rm,
      B._parameters.foldl (fun m pr => StdMap.assign (StdMap.subscript m pr.1).1 pr.1 pr.2)
          A._parameters = hdM :: rm ∧
        hdM.2.length % UINT_RANGE = n := by
  obtain ⟨kb, vb⟩ := hdB
  have hnB := (n_steps_cons debug B (kb, vb) rb hBp n hB).1
  have hfindB : StdMap.find B._parameters kb = some vb := by
    rw [hBp]
    exact StdMap.find_head _ _ _
  have hMw := WF_merge B._parameters A._parameters hAw
  have hMkb := find_merge_of_find B._parameters A._parameters kb vb hBw hfindB
  cases hM : B._parameters.foldl
      (fun m pr => StdMap.assign (StdMap.subscript m pr.1).1 pr.1 pr.2) A._parameters with
  | nil =>
    rw [hM] at hMkb
    simp [StdMap.find] at hMkb
  | cons hdM rm =>
    obtain ⟨km, vm⟩ := hdM
    refine ⟨(km, vm), rm, rfl, ?_⟩
    rw [hM] at hMw hMkb
    have hMkm : StdMap.find
        (B._parameters.foldl (fun m pr => StdMap.assign (StdMap.subscript m pr.1).1 pr.1 pr.2)
          A._parameters) km = some vm := by
      rw [hM]
      exact StdMap.find_head _ _ _
    have hle1 : km ≤ kb := StdMap.head_le_of_find km vm rm kb vb hMw hMkb
    cases hfB : StdMap.find B._parameters km with
    | some w =>
      have hw := find_merge_of_find B._parameters A._parameters km w hBw hfB
      rw [hMkm] at hw
      simp only [Option.some.injEq] at hw
      have hle2 : kb ≤ km := by
        rw [hBp] at hBw hfB
        exact StdMap.head_le_of_find kb vb rb km w hBw hfB
      have hk : km = kb := le_antisymm hle1 hle2
      rw [hk, hfindB] at hfB
      simp only [Option.some.injEq] at hfB
      rw [hw, ← hfB]
      exact hnB.symm
    | none =>
      have hfA := find_merge_of_not_mem B._parameters A._parameters km
        ((find_eq_none_iff _ _).mp hfB)
      rw [hMkm] at hfA
      cases hAp : A._parameters with
      | nil =>
        rw [hAp] at hfA
        simp [StdMap.find] at hfA
      | cons hdA ra =>
        obtain ⟨ka, va⟩ := hdA
        have hnA := (n_steps_cons debug A (ka, va) ra hAp n hA).1
        have hfindA : StdMap.find A._parameters ka = some va := by
          rw [hAp]
          exact StdMap.find_head _ _ _
        have hle2 : ka ≤ km := by
          rw [hAp] at hAw hfA
          exact StdMap.head_le_of_find ka va ra km vm hAw hfA.symm
        have hMka : ∃ w, StdMap.find
            (B._parameters.foldl
              (fun m pr => StdMap.assign (StdMap.subscript m pr.1).1 pr.1 pr.2)
              A._parameters) ka = some w := by
          cases hfBa : StdMap.find B._parameters ka with
          | some w => exact ⟨w, find_merge_of_find _ _ ka w hBw hfBa⟩
          | none =>
            refine ⟨va, ?_⟩
            rw [find_merge_of_not_mem _ _ ka ((find_eq_none_iff _ _).mp hfBa)]
            exact hfindA
        obtain ⟨w, hw⟩ := hMka
        rw [hM] at hw
        have hle3 : km ≤ ka := StdMap.head_le_of_find km vm rm ka w hMw hw
        have hk : km = ka := le_antisymm hle3 hle2
        rw [hk, hfindA] at hfA
        simp only [Option.some.injEq] at hfA
        rw [hfA]
        exact hnA.symm

/-- With `DEBUG`, a returned `n_steps()` is the length of every stored vector, as an
`unsigned int`. -/
theorem n_steps_debug_all (self : RBParameters Real) (n : Nat)
    (h : n_steps true self = .ok n) :
    ∀ pr ∈ self._parameters, pr.2.length % UINT_RANGE = n := by
  cases hp : self._parameters with
  | nil => simp
  | cons hd rest =>
    rw [← hp]
    intro pr hpr
    obtain ⟨h1, h2⟩ := n_steps_cons true self hd rest hp n h
    rw [h2 rfl pr hpr, h1]

/-- The call `set_value(p, j, v)` on a default-constructed set with `j` and `j + 1` too large
for `resize`: the call throws and leaves `p` mapped to an empty vector. -/
theorem set_value_on_empty_throws [Zero Real] (max_size : Nat) (p : String) (j : Nat)
    (v : Real) (h1 : 0 < j) (h2 : (j + 1) % SIZE_RANGE > max_size) :
    (set_value max_size (empty : RBParameters Real) p j v).1 = .error .length_error ∧
      StdMap.find (set_value max_size (empty : RBParameters Real) p j v).2._parameters p =
        some [] := by
  have h := set_value_helper_throw_effect max_size ([] : StdMap String (List Real)) p j v
    (by simpa [StdMap.find] using h1) h2
  exact ⟨h.1, by simpa [StdMap.find] using h.2.1⟩

/-- The set with one parameter of `len + 1` steps of value 0 is what `set_value(p, len, 0)`
leaves on a default-constructed set, where `resize` delivers that size. -/
theorem set_value_on_empty_eq_one_parameter (max_size : Nat) (param_name : String)
    (len : Nat) (h : len + 1 < SIZE_RANGE ∧ len + 1 ≤ max_size) :
    set_value max_size (empty : RBParameters ℚ) param_name len 0 =
      (.ok (), one_parameter param_name (len + 1)) := by
  have hset : ∀ (n i : Nat), (List.replicate n (0 : ℚ)).set i 0 = List.replicate n 0 := by
    intro n i
    apply List.ext_getElem
    · simp
    · intro j h1 h2
      simp [List.getElem_set]
  unfold set_value
  rw [set_value_helper_of_fits max_size _ param_name len 0 (Or.inr h)]
  by_cases hlen : len = 0
  · subst hlen
    simp [empty, one_parameter, StdMap.find, StdMap.assign]
  · have hlen2 : ¬ (0 = len) := fun h0 => hlen h0.symm
    simp [empty, one_parameter, StdMap.find, StdMap.assign, vector_resize, hlen, hlen2, hset]

/-- The step count of a set with one parameter of `len` steps. -/
theorem n_steps_one_parameter (debug : Bool) (param_name : String) (len : Nat) :
    n_steps debug (one_parameter param_name len) = .ok (len % UINT_RANGE) := by
  cases debug <;> simp [n_steps, one_parameter]

/-- The effect of `A += B` where `A` stores "a" with `len` steps, `B` stores "b" with one step,
and `len` is 1 as an `unsigned int`. -/
theorem operator_plus_assign_one_parameter (debug : Bool) (len : Nat)
    (h : len % UINT_RANGE = 1) :
    operator_plus_assign debug (one_parameter "a" len) (one_parameter "b" 1) =
      (.ok (),
        { _n_steps := 1,
          _parameters := [("a", List.replicate len 0), ("b", List.replicate 1 0)],
          _extra_parameters := [] }) := by
  have h1 : (1 : Nat) % UINT_RANGE = 1 := by unfold UINT_RANGE; norm_num
  have hab : ("a" : String) < "b" := by
    simp [String.lt_iff]
    decide
  rw [operator_plus_assign_of_n_steps debug _ _ _ _ (n_steps_one_parameter debug "a" len)
    (n_steps_one_parameter debug "b" 1), h, h1]
  simp [one_parameter, StdMap.subscript, StdMap.find, StdMap.assign, hab]
  decide

/-- Every vector of a set with one parameter of `len` steps has `len` steps. -/
theorem one_parameter_lengths (param_name : String) (len : Nat) :
    ∀ pr ∈ (one_parameter param_name len)._parameters, pr.2.length = len := by
  intro pr hpr
  simp only [one_parameter, List.mem_singleton] at hpr
  rw [hpr, List.length_replicate]

/-- After `A += B` where `A` stores "a" with `len` steps, not one step but 1 as an
`unsigned int`, and `B` stores "b" with one step, `A` holds vectors of two lengths, and
`n_steps()` with `DEBUG` fails its assertion. -/
theorem operator_plus_assign_one_parameter_ragged (debug : Bool) (len : Nat)
    (h : len % UINT_RANGE = 1) (hne : len ≠ 1) :
    (operator_plus_assign debug (one_parameter "a" len) (one_parameter "b" 1)).1 = .ok () ∧
      (¬ ∃ c, ∀ pr ∈ (operator_plus_assign debug (one_parameter "a" len)
          (one_parameter "b" 1)).2._parameters, pr.2.length = c) ∧
      n_steps true (operator_plus_assign debug (one_parameter "a" len)
          (one_parameter "b" 1)).2 = .error .assertion_failure := by
  rw [operator_plus_assign_one_parameter debug len h]
  refine ⟨rfl, ?_, ?_⟩
  · rintro ⟨c, hc⟩
    have h1 := hc ("a", List.replicate len 0) (List.mem_cons_self _ _)
    have h2 := hc ("b", List.replicate 1 0) (List.mem_cons_of_mem _ (List.mem_cons_self _ _))
    simp only [List.length_replicate] at h1 h2
    omega
  · have hne2 : ¬ (1 = len) := fun h => hne h.symm
    simp [n_steps, hne2]

/-- Vectors that compare equal hold the same values when `==` on `Real` holds of equal values
only. -/
theorem vector_eq_sound [BEq Real] (hsound : ∀ a b : Real, (a == b) = true → a = b)
    (v w : List Real) (h : vector_eq v w = true) : v = w := by
  induction v generalizing w with
  | nil =>
    cases w with
    | nil => rfl
    | cons b bs => simp [vector_eq] at h
  | cons a as ih =>
    cases w with
    | nil => simp [vector_eq] at h
    | cons b bs =>
      simp only [vector_eq, Bool.and_eq_true] at h
      rw [hsound a b h.1, ih bs h.2]

/-- A vector whose values compare equal to themselves compares equal to itself. -/
theorem vector_eq_refl [BEq Real] (v : List Real) (h : ∀ x ∈ v, (x == x) = true) :
    vector_eq v v = true := by
  induction v with
  | nil => rfl
  | cons a as ih =>
    simp only [vector_eq, Bool.and_eq_true]
    exact ⟨h a (List.mem_cons_self _ _), ih (fun x hx => h x (List.mem_cons_of_mem _ hx))⟩

theorem vector_eq_iff_forall2 [BEq Real] (v w : List Real) :
    vector_eq v w = true ↔ List.Forall₂ (fun x y => (x == y) = true) v w := by
  induction v generalizing w with
  | nil =>
    cases w with
    | nil => simp [vector_eq]
    | cons b bs => simp [vector_eq]
  | cons a as ih =>
    cases w with
    | nil => simp [vector_eq]
    | cons b bs => simp [vector_eq, ih]

theorem map_eq_iff_forall2 [BEq Real] (m1 m2 : StdMap String (List Real)) :
    map_eq m1 m2 = true ↔
      List.Forall₂
        (fun a b => a.1 = b.1 ∧ List.Forall₂ (fun x y => (x == y) = true) a.2 b.2) m1 m2 := by
  induction m1 generalizing m2 with
  | nil =>
    cases m2 with
    | nil => simp [map_eq]
    | cons hd2 rest2 => simp [map_eq]
  | cons hd1 rest1 ih =>
    obtain ⟨k1, v1⟩ := hd1
    cases m2 with
    | nil => simp [map_eq]
    | cons hd2 rest2 =>
      obtain ⟨k2, v2⟩ := hd2
      simp [map_eq, ih, vector_eq_iff_forall2, and_assoc]

theorem map_eq_sound [BEq Real] (hsound : ∀ a b : Real, (a == b) = true → a = b)
    (m1 m2 : StdMap String (List Real)) (h : map_eq m1 m2 = true) : m1 = m2 := by
  induction m1 generalizing m2 with
  | nil =>
    cases m2 with
    | nil => rfl
    | cons hd2 rest2 => simp [map_eq] at h
  | cons hd1 rest1 ih =>
    obtain ⟨k1, v1⟩ := hd1
    cases m2 with
    | nil => simp [map_eq] at h
    | cons hd2 rest2 =>
      obtain ⟨k2, v2⟩ := hd2
      simp only [map_eq, Bool.and_eq_true, decide_eq_true_eq] at h
      rw [h.1.1, vector_eq_sound hsound v1 v2 h.1.2, ih rest2 h.2]

theorem map_eq_refl [BEq Real] (m : StdMap String (List Real))
    (h : ∀ pr ∈ m, ∀ x ∈ pr.2, (x == x) = true) : map_eq m m = true := by
  induction m with
  | nil => rfl
  | cons hd rest ih =>
    obtain ⟨k, v⟩ := hd
    simp only [map_eq, Bool.and_eq_true, decide_eq_true_eq]
    exact ⟨⟨trivial, vector_eq_refl v (h (k, v) (List.mem_cons_self _ _))⟩,
      ih (fun pr hpr => h pr (List.mem_cons_of_mem _ hpr))⟩

end RBParameters

/-! ## Claims on `RBParameters` -/

namespace RBParameters

variable {Real : Type}

/-- C1, as amended: for every name `p`, value `v` and step `j` that is 0 or such that `j + 1`
is a `std::size_t` not above what `resize` accepts, the call `set_value(p, j, v)` on an empty
parameter set returns normally, and afterwards `get_step_value(p, i)` returns `0` for every
`i < j` and `get_step_value(p, j)` returns `v`. -/
theorem set_value_on_empty_then_get_step_value [Zero Real] (max_size : Nat) (p : String)
    (j : Nat) (v : Real) (hj : j = 0 ∨ (j + 1 < SIZE_RANGE ∧ j + 1 ≤ max_size)) :
    (set_value max_size (empty : RBParameters Real) p j v).1 = .ok () ∧
      (∀ i, i < j →
        get_step_value (set_value max_size (empty : RBParameters Real) p j v).2 p i = .ok 0) ∧
      get_step_value (set_value max_size (empty : RBParameters Real) p j v).2 p j = .ok v := by
  have hfit : j ≤ ((StdMap.find ([] : StdMap String (List Real)) p).getD []).length ∨
      (j + 1 < SIZE_RANGE ∧ j + 1 ≤ max_size) := by
    rcases hj with h | h
    · exact Or.inl (by omega)
    · exact Or.inr h
  have hok : (set_value max_size (empty : RBParameters Real) p j v).1 = .ok () :=
    (set_value_helper_effect max_size [] p j v hfit).1
  have hfind :
      StdMap.find (set_value max_size (empty : RBParameters Real) p j v).2._parameters p =
        some (if j = 0 then [v] else (List.replicate (j + 1) (0 : Real)).set j v) := by
    show StdMap.find (set_value_helper max_size [] p j v).2 p = _
    rw [find_set_value_helper_self max_size [] p j v hfit]
    by_cases hj0 : j = 0
    · subst hj0
      simp [StdMap.find]
    · have hj2 : ¬ (0 = j) := fun h => hj0 h.symm
      simp [StdMap.find, hj0, hj2, vector_resize]
  refine ⟨hok, ?_, ?_⟩
  · intro i hi
    rw [get_step_value_eq_ok_iff]
    refine ⟨_, hfind, ?_⟩
    have hj0 : j ≠ 0 := by omega
    have hij : j ≠ i := by omega
    simp only [hj0, if_false]
    rw [List.getElem?_set_ne hij, List.getElem?_eq_getElem (by simp; omega)]
    simp
  · rw [get_step_value_eq_ok_iff]
    refine ⟨_, hfind, ?_⟩
    by_cases hj0 : j = 0
    · subst hj0
      simp
    · simp [hj0]

/-- A run of C1 as amended: step 2 of "k" is set to 7 in an empty set, and step 1 reads 0. -/
theorem set_value_on_empty_then_get_step_value_witness :
    get_step_value (set_value 1000 (empty : RBParameters Int) "k" 2 7).2 "k" 1 = .ok 0 :=
  (set_value_on_empty_then_get_step_value 1000 "k" 2 (7 : Int)
    (Or.inr ⟨by decide, by decide⟩)).2.1 1 (by decide)

/-- C1, as stated, fails: where `max_size()` is `2 ^ 60 - 1`, the call
`set_value("k", 2 ^ 61, 7)` on an empty parameter set ends in `std::length_error`, and
`get_step_value("k", 2 ^ 61)` afterwards does not return 7. -/
theorem set_value_on_empty_past_max_size :
    (set_value 1152921504606846975 (empty : RBParameters Int) "k" 2305843009213693952 7).1 =
        .error .length_error ∧
      get_step_value
          (set_value 1152921504606846975 (empty : RBParameters Int) "k"
            2305843009213693952 7).2
          "k" 2305843009213693952 ≠ .ok 7 := by
  have h := set_value_on_empty_throws 1152921504606846975 "k" 2305843009213693952 (7 : Int)
    (by norm_num) (by unfold SIZE_RANGE; norm_num)
  refine ⟨h.1, ?_⟩
  intro hget
  rw [get_step_value_eq_ok_iff] at hget
  obtain ⟨vec, hvec, hstep⟩ := hget
  rw [h.2] at hvec
  simp only [Option.some.injEq] at hvec
  subst hvec
  simp at hstep

/-- C9: when nothing is stored for `p` (no entry, or an entry with no value), the calls
`push_back_value(p, v0)`, ..., `push_back_value(p, v(k-1))` in this order leave
`get_step_value(p, i)` returning `vi` for every `i < k`. -/
theorem push_back_values_then_get_step_value (self : RBParameters Real) (p : String)
    (vs : List Real) (hp : (StdMap.find self._parameters p).getD [] = []) (i : Nat)
    (hi : i < vs.length) :
    get_step_value (vs.foldl (fun acc v => push_back_value acc p v) self) p i =
      .ok (vs.get ⟨i, hi⟩) := by
  have hvs : vs ≠ [] := by
    intro h
    subst h
    simp at hi
  have hsome := find_push_back_values_isSome vs self p hvs
  have hget := find_push_back_values vs self p
  rw [hp, List.nil_append] at hget
  rw [get_step_value_eq_ok_iff]
  obtain ⟨vec, hvec⟩ := Option.isSome_iff_exists.mp hsome
  refine ⟨vec, hvec, ?_⟩
  rw [hvec] at hget
  simp only [Option.getD_some] at hget
  subst hget
  simp [List.getElem?_eq_getElem hi]

/-- A run of C9: three values pushed under "t" in an empty set; step 1 reads the second. -/
theorem push_back_values_then_get_step_value_witness :
    get_step_value
        ([5, 6, 7].foldl (fun acc v => push_back_value acc "t" v) (empty : RBParameters Int))
        "t" 1 = .ok 6 :=
  push_back_values_then_get_step_value (empty : RBParameters Int) "t" [5, 6, 7] rfl 1
    (by decide)

/-- C10: after the legacy `set_value(name, value)` the vector stored for `name` is exactly
`{value}`, so it has length 1 and `get_step_value(name, 0)` returns `value`, whatever was stored
before; every other parameter, every extra parameter and `_n_steps` are as before. -/
theorem set_value_legacy_resets (self : RBParameters Real) (name : String) (value : Real) :
    StdMap.find (set_value_legacy self name value)._parameters name = some [value] ∧
      get_step_value (set_value_legacy self name value) name 0 = .ok value ∧
      (∀ step, get_step_value (set_value_legacy self name value) name (step + 1) =
        .error .error_msg) ∧
      (∀ other, other ≠ name →
        StdMap.find (set_value_legacy self name value)._parameters other =
          StdMap.find self._parameters other) ∧
      (set_value_legacy self name value)._extra_parameters = self._extra_parameters ∧
      (set_value_legacy self name value)._n_steps = self._n_steps := by
  have hfind : StdMap.find (set_value_legacy self name value)._parameters name = some [value] :=
    StdMap.find_write_self _ _ _
  refine ⟨hfind, ?_, ?_, ?_, rfl, rfl⟩
  · rw [get_step_value_eq_ok_iff]
    exact ⟨_, hfind, rfl⟩
  · intro step
    unfold get_step_value StdMap.map_find
    rw [hfind]
    simp
  · intro other hne
    exact StdMap.find_write_ne _ _ _ _ hne

/-- A run of C10: "a" holds three steps and "b" one; the legacy call on "a" leaves "b" alone. -/
theorem set_value_legacy_resets_witness :
    StdMap.find
        (set_value_legacy
          ({ _n_steps := 1, _parameters := [("a", [1, 2, 3]), ("b", [4])],
             _extra_parameters := [] } : RBParameters Int) "a" 9)._parameters "b" =
      some [4] :=
  ((set_value_legacy_resets
      ({ _n_steps := 1, _parameters := [("a", [1, 2, 3]), ("b", [4])],
         _extra_parameters := [] } : RBParameters Int) "a" 9).2.2.2.1 "b" (by decide)).trans
    (by simp [StdMap.find])

/-- C2: when `n_steps()` of `A` and of `B` agree, `A += B` succeeds, and afterwards, in the
primary and in the extra mapping alike, `A` holds under every key of `B` exactly the vector of
`B`, and under every key `B` does not hold what `A` held before (nothing, when `A` had no such
key); the mappings of `A` are still well-formed maps. -/
theorem operator_plus_assign_merges (debug : Bool) (A B : RBParameters Real) (n : Nat)
    (hA : A.n_steps debug = .ok n) (hB : B.n_steps debug = .ok n)
    (hBp : StdMap.WF B._parameters) (hBe : StdMap.WF B._extra_parameters) :
    (operator_plus_assign debug A B).1 = .ok () ∧
      (∀ key vec, StdMap.find B._parameters key = some vec →
        StdMap.find (operator_plus_assign debug A B).2._parameters key = some vec) ∧
      (∀ key, StdMap.find B._parameters key = none →
        StdMap.find (operator_plus_assign debug A B).2._parameters key =
          StdMap.find A._parameters key) ∧
      (∀ key vec, StdMap.find B._extra_parameters key = some vec →
        StdMap.find (operator_plus_assign debug A B).2._extra_parameters key = some vec) ∧
      (∀ key, StdMap.find B._extra_parameters key = none →
        StdMap.find (operator_plus_assign debug A B).2._extra_parameters key =
          StdMap.find A._extra_parameters key) ∧
      (StdMap.WF A._parameters → StdMap.WF (operator_plus_assign debug A B).2._parameters) ∧
      (StdMap.WF A._extra_parameters →
        StdMap.WF (operator_plus_assign debug A B).2._extra_parameters) := by
  have hrun := operator_plus_assign_of_n_steps debug A B n n hA hB
  simp only [ne_eq, not_true_eq_false, if_false] at hrun
  rw [hrun]
  refine ⟨rfl, ?_, ?_, ?_, ?_, ?_, ?_⟩
  · intro key vec hkey
    exact find_merge_of_find _ _ key vec hBp hkey
  · intro key hkey
    exact find_merge_of_not_mem _ _ key ((find_eq_none_iff _ _).mp hkey)
  · intro key vec hkey
    exact find_merge_of_find _ _ key vec hBe hkey
  · intro key hkey
    exact find_merge_of_not_mem _ _ key ((find_eq_none_iff _ _).mp hkey)
  · exact WF_merge _ _
  · exact WF_merge _ _

/-- A run of C2: `A` holds "a" and "b", `B` holds "b" and "c" and an extra "e"; after `A += B`
the key "b" holds the vector of `B`. -/
theorem operator_plus_assign_merges_witness :
    StdMap.find
        (operator_plus_assign false
          ({ _n_steps := 1, _parameters := [("a", [1]), ("b", [2])],
             _extra_parameters := [] } : RBParameters Int)
          { _n_steps := 1, _parameters := [("b", [5]), ("c", [6])],
            _extra_parameters := [("e", [0])] }).2._parameters "b" = some [5] :=
  (operator_plus_assign_merges false
      ({ _n_steps := 1, _parameters := [("a", [1]), ("b", [2])],
         _extra_parameters := [] } : RBParameters Int)
      { _n_steps := 1, _parameters := [("b", [5]), ("c", [6])],
        _extra_parameters := [("e", [0])] } 1 rfl rfl
      (by simp [StdMap.WF]; decide) (by simp [StdMap.WF])).2.1 "b" [5] (by simp [StdMap.find])

/-- C3: `A += B` returns normally exactly when the two `n_steps()` calls return one common
value, and throws its error exactly when they return two different values (without `DEBUG`
they always return); whenever it does not return normally, `A` is left as it was: `_n_steps`,
the primary and the extra mapping. -/
theorem operator_plus_assign_error_iff (debug : Bool) (A B : RBParameters Real) :
    ((operator_plus_assign debug A B).1 = .ok () ↔
        ∃ n, A.n_steps debug = .ok n ∧ B.n_steps debug = .ok n) ∧
      ((operator_plus_assign debug A B).1 = .error .error_msg ↔
        ∃ a b, A.n_steps debug = .ok a ∧ B.n_steps debug = .ok b ∧ a ≠ b) ∧
      ((operator_plus_assign debug A B).1 ≠ .ok () → (operator_plus_assign debug A B).2 = A) ∧
      ((∃ a, A.n_steps false = .ok a) ∧ ∃ b, B.n_steps false = .ok b) := by
  refine ⟨?_, ?_, ?_, n_steps_unchecked_returns A, n_steps_unchecked_returns B⟩
  · cases hA : A.n_steps debug with
    | error e => simp [operator_plus_assign, hA]
    | ok a =>
      cases hB : B.n_steps debug with
      | error e => simp [operator_plus_assign, hA, hB]
      | ok b =>
        rw [operator_plus_assign_of_n_steps debug A B a b hA hB]
        by_cases hab : a = b
        · simp [hab]
        · simp [hab, Ne.symm hab]
  · cases hA : A.n_steps debug with
    | error e =>
      have he : e = Error.assertion_failure := by
        unfold n_steps at hA
        split at hA
        · simp at hA
        · split at hA
          · simp only [Except.error.injEq] at hA
            exact hA.symm
          · simp at hA
      simp [operator_plus_assign, hA, he]
    | ok a =>
      cases hB : B.n_steps debug with
      | error e =>
        have he : e = Error.assertion_failure := by
          unfold n_steps at hB
          split at hB
          · simp at hB
          · split at hB
            · simp only [Except.error.injEq] at hB
              exact hB.symm
            · simp at hB
        simp [operator_plus_assign, hA, hB, he]
      | ok b =>
        rw [operator_plus_assign_of_n_steps debug A B a b hA hB]
        by_cases hab : a = b
        · simp [hab]
        · simp [hab, Ne.symm hab]
  · cases hA : A.n_steps debug with
    | error e => simp [operator_plus_assign, hA]
    | ok a =>
      cases hB : B.n_steps debug with
      | error e => simp [operator_plus_assign, hA, hB]
      | ok b =>
        rw [operator_plus_assign_of_n_steps debug A B a b hA hB]
        by_cases hab : a = b
        · simp [hab]
        · simp [hab, Ne.symm hab]

/-- A run of C3: `A` has one step and `B` two, so `A += B` throws and `A` is left as it was. -/
theorem operator_plus_assign_error_iff_witness :
    (operator_plus_assign false
        ({ _n_steps := 1, _parameters := [("a", [1])], _extra_parameters := [] } :
          RBParameters Int)
        { _n_steps := 1, _parameters := [("a", [5, 6])], _extra_parameters := [] }).2 =
      { _n_steps := 1, _parameters := [("a", [1])], _extra_parameters := [] } :=
  (operator_plus_assign_error_iff false
      ({ _n_steps := 1, _parameters := [("a", [1])], _extra_parameters := [] } :
        RBParameters Int)
      { _n_steps := 1, _parameters := [("a", [5, 6])], _extra_parameters := [] }).2.2.1
    (by simp [operator_plus_assign, n_steps, UINT_RANGE])

/-- C11: the parameter set constructed from a flat map `m` returns `m[name]` from
`get_value(name)` for every key of `m`, has `has_value(name)` false for every name `m` does not
hold, and has `n_steps() == 1`, also when `m` is empty. -/
theorem from_map_round_trip (debug : Bool) (m : StdMap String Real) (hm : StdMap.WF m) :
    (∀ name val, StdMap.find m name = some val → get_value (from_map m) name = .ok val) ∧
      (∀ name, StdMap.find m name = none → has_value (from_map m) name = false) ∧
      n_steps debug (from_map m) = .ok 1 ∧
      n_steps debug (from_map ([] : StdMap String Real)) = .ok 1 := by
  have hwf : StdMap.WF (m.map (fun pr => (pr.1, [pr.2]))) := by
    unfold StdMap.WF at hm ⊢
    rw [List.pairwise_map]
    exact hm
  refine ⟨?_, ?_, n_steps_from_map debug m, n_steps_from_map debug []⟩
  · intro name val hval
    unfold get_value
    rw [get_step_value_eq_ok_iff]
    refine ⟨[val], ?_, rfl⟩
    rw [from_map_parameters]
    apply find_merge_of_find _ _ _ _ hwf
    rw [find_map_singleton, hval]
    rfl
  · intro name hname
    rw [has_value_eq_false_iff, from_map_parameters, find_merge_of_not_mem]
    · rfl
    · rw [← find_eq_none_iff, find_map_singleton, hname]
      rfl

/-- A run of C11: the flat map holding "a" and "b"; `get_value("b")` returns its value. -/
theorem from_map_round_trip_witness :
    get_value (from_map ([("a", 3), ("b", 4)] : StdMap String Int)) "b" = .ok 4 :=
  (from_map_round_trip false ([("a", 3), ("b", 4)] : StdMap String Int)
    (by simp [StdMap.WF]; decide)).1 "b" 4 (by simp [StdMap.find])

/-- C12: after `clear()`, whatever was stored and whatever `set_n_steps` was given before,
`n_steps()` returns 1, `n_parameters()` returns 0 and no primary or extra parameter remains. -/
theorem clear_resets (debug : Bool) (self : RBParameters Real) (n : Nat) :
    n_steps debug (clear self) = .ok 1 ∧
      n_steps debug (clear (set_n_steps self n)) = .ok 1 ∧
      n_parameters (clear self) = 0 ∧
      (∀ name, has_value (clear self) name = false) ∧
      (∀ name, has_extra_value (clear self) name = false) ∧
      (clear self)._extra_parameters = [] :=
  ⟨rfl, rfl, rfl, fun _ => rfl, fun _ => rfl, rfl⟩

/-- C13: `get_step_value(name, step)` ends in an error exactly when `name` is not in the primary
map or `step` is not below the length of the vector stored for `name`; otherwise it returns
element `step` of that vector. -/
theorem get_step_value_error_iff (self : RBParameters Real) (name : String) (step : Nat) :
    ((∃ e, get_step_value self name step = .error e) ↔
        (has_value self name = false ∨
          ∃ vec, StdMap.find self._parameters name = some vec ∧ step ≥ vec.length)) ∧
      (∀ (vec : List Real) (hs : step < vec.length),
        StdMap.find self._parameters name = some vec →
          get_step_value self name step = .ok (vec.get ⟨step, hs⟩)) := by
  constructor
  · rw [has_value_eq_false_iff]
    unfold get_step_value StdMap.map_find
    cases h : StdMap.find self._parameters name with
    | none => simp
    | some vec =>
      by_cases hs : step ≥ vec.length
      · simp [hs]
      · simp [hs]
  · intro vec hs hvec
    rw [get_step_value_eq_ok_iff]
    exact ⟨vec, hvec, by simp [List.getElem?_eq_getElem hs]⟩

/-- A run of C13: three steps stored under "a"; step 2 is read. -/
theorem get_step_value_error_iff_witness :
    get_step_value
        ({ _n_steps := 1, _parameters := [("a", [1, 2, 3])], _extra_parameters := [] } :
          RBParameters Int) "a" 2 = .ok 3 :=
  (get_step_value_error_iff
    ({ _n_steps := 1, _parameters := [("a", [1, 2, 3])], _extra_parameters := [] } :
      RBParameters Int) "a" 2).2 [1, 2, 3] (by decide) (by simp [StdMap.find])

/-- C14: the defaulted `get_step_value(name, step, default)` always returns a value: the one
`get_step_value(name, step)` returns when that call succeeds, and `default` when that call ends
in an error; `get_value(name, default)` stands to `get_value(name)` in the same way. -/
theorem get_step_value_default_spec (self : RBParameters Real) (name : String) (step : Nat)
    (default_val : Real) :
    (get_step_value_default self name step default_val =
        match get_step_value self name step with
        | .ok x => x
        | .error _ => default_val) ∧
      (∀ x, get_step_value self name step = .ok x →
        get_step_value_default self name step default_val = x) ∧
      (∀ e, get_step_value self name step = .error e →
        get_step_value_default self name step default_val = default_val) ∧
      (get_value_default self name default_val =
        match get_value self name with
        | .ok x => x
        | .error _ => default_val) := by
  have h := get_step_value_default_eq self name step default_val
  refine ⟨h, ?_, ?_, get_step_value_default_eq self name 0 default_val⟩
  · intro x hx
    rw [h, hx]
  · intro e he
    rw [h, he]

/-- A run of C14: step 5 of a three-step parameter is out of range; the default is returned. -/
theorem get_step_value_default_spec_witness :
    get_step_value_default
        ({ _n_steps := 1, _parameters := [("a", [1, 2, 3])], _extra_parameters := [] } :
          RBParameters Int) "a" 5 42 = 42 :=
  (get_step_value_default_spec
    ({ _n_steps := 1, _parameters := [("a", [1, 2, 3])], _extra_parameters := [] } :
      RBParameters Int) "a" 5 42).2.2.1 .error_msg
    (by simp [get_step_value, StdMap.map_find, StdMap.find])

/-- C15, as amended: while no primary parameter is stored, `n_steps()` returns `_n_steps`,
which is 1 after construction and after `clear()`, is what the last `set_n_steps` was given,
and is written by no other member; once a primary parameter is stored, `n_steps()` without
`DEBUG` returns the length of the vector of the first entry, the one with the least key,
reduced modulo `2 ^ 32`, which is that length itself below `2 ^ 32`, whatever `_n_steps` is. -/
theorem n_steps_spec [Zero Real] (debug : Bool) (self : RBParameters Real) (n : Nat) :
    (self._parameters = [] → n_steps debug self = .ok self._n_steps) ∧
      (self._parameters = [] → n_steps debug (set_n_steps self n) = .ok n) ∧
      n_steps debug (empty : RBParameters Real) = .ok 1 ∧
      n_steps debug (clear self) = .ok 1 ∧
      (∀ (max_size : Nat) (name : String) (index : Nat) (value : Real),
        (set_value max_size self name index value).2._n_steps = self._n_steps ∧
          (set_value_legacy self name value)._n_steps = self._n_steps ∧
          (push_back_value self name value)._n_steps = self._n_steps ∧
          (set_extra_value max_size self name index value).2._n_steps = self._n_steps ∧
          (set_extra_value_legacy self name value)._n_steps = self._n_steps ∧
          (push_back_extra_value self name value)._n_steps = self._n_steps ∧
          (erase_parameter self name)._n_steps = self._n_steps ∧
          (erase_extra_parameter self name)._n_steps = self._n_steps) ∧
      (∀ rhs : RBParameters Real, (operator_plus_assign debug self rhs).2._n_steps =
        self._n_steps) ∧
      (∀ (key : String) (first : List Real) (rest : StdMap String (List Real)),
        self._parameters = (key, first) :: rest →
          n_steps false self = .ok (first.length % UINT_RANGE) ∧
            n_steps false (set_n_steps self n) = .ok (first.length % UINT_RANGE) ∧
            (first.length < UINT_RANGE →
              n_steps false self = .ok first.length ∧
                n_steps false (set_n_steps self n) = .ok first.length) ∧
            (StdMap.WF self._parameters → ∀ pr ∈ rest, key < pr.1)) := by
  refine ⟨?_, ?_, rfl, rfl, ?_, ?_, ?_⟩
  · intro h
    simp [n_steps, h]
  · intro h
    simp [n_steps, set_n_steps, h]
  · intro max_size name index value
    exact ⟨rfl, rfl, rfl, rfl, rfl, rfl, rfl, rfl⟩
  · intro rhs
    unfold operator_plus_assign
    split
    · rfl
    · rfl
    · split <;> rfl
  · intro key first rest h
    have h1 : n_steps false self = .ok (first.length % UINT_RANGE) := by
      simp [n_steps, h]
    have h2 : n_steps false (set_n_steps self n) = .ok (first.length % UINT_RANGE) := by
      simp [n_steps, set_n_steps, h]
    refine ⟨h1, h2, ?_, ?_⟩
    · intro hlt
      rw [h1, h2, Nat.mod_eq_of_lt hlt]
      exact ⟨rfl, rfl⟩
    · intro hwf
      rw [h] at hwf
      unfold StdMap.WF at hwf
      exact (List.pairwise_cons.mp hwf).1

/-- A run of C15 as amended: "a" holds two steps and `set_n_steps(7)` was called; `n_steps()`
is 2. -/
theorem n_steps_spec_witness :
    n_steps false
        (set_n_steps
          ({ _n_steps := 1, _parameters := [("a", [1, 2]), ("b", [3])],
             _extra_parameters := [] } : RBParameters Int) 7) = .ok 2 :=
  (((n_steps_spec false
    ({ _n_steps := 1, _parameters := [("a", [1, 2]), ("b", [3])],
       _extra_parameters := [] } : RBParameters Int) 7).2.2.2.2.2.2 "a" [1, 2] [("b", [3])]
    rfl).2.2.1 (by decide)).2

/-- C15, as stated, fails: after `set_value("a", 2 ^ 32 - 1, 0)` on a default-constructed
set the one parameter stored is a vector of `2 ^ 32` steps, and `n_steps()` without `DEBUG`
returns 0, not the length of that vector. -/
theorem n_steps_narrows :
    set_value 1152921504606846975 (empty : RBParameters ℚ) "a" 4294967295 0 =
        (.ok (), one_parameter "a" 4294967296) ∧
      ∃ key first rest,
        (one_parameter "a" 4294967296)._parameters = (key, first) :: rest ∧
          n_steps false (one_parameter "a" 4294967296) = .ok 0 ∧
          n_steps false (one_parameter "a" 4294967296) ≠ .ok first.length := by
  have hrun : n_steps false (one_parameter "a" 4294967296) = .ok 0 := by
    rw [n_steps_one_parameter]
    rfl
  refine ⟨set_value_on_empty_eq_one_parameter 1152921504606846975 "a" 4294967295
      ⟨by unfold SIZE_RANGE; norm_num, by norm_num⟩,
    "a", List.replicate 4294967296 0, [], rfl, hrun, ?_⟩
  rw [hrun, List.length_replicate]
  intro h
  exact absurd (Except.ok.inj h) (by norm_num)

/-- C16, as amended: for parameter sets whose maps are well formed, `A == B` holds exactly
when the primary maps hold the same keys and, key by key, vectors of one length whose
elements compare equal with `==` on `Real`, and so do the extra maps; when `==` on `Real`
holds of equal values only and every value stored in `A` compares equal to itself (none is a
NaN), that is exactly when both maps hold the same keys with the same vectors. `A != B` is the
negation of `A == B`. -/
theorem operator_eq_iff [BEq Real] (A B : RBParameters Real)
    (hAp : StdMap.WF A._parameters) (hBp : StdMap.WF B._parameters)
    (hAe : StdMap.WF A._extra_parameters) (hBe : StdMap.WF B._extra_parameters) :
    (operator_eq A B = true ↔
        List.Forall₂
            (fun a b => a.1 = b.1 ∧ List.Forall₂ (fun x y => (x == y) = true) a.2 b.2)
            A._parameters B._parameters ∧
          List.Forall₂
            (fun a b => a.1 = b.1 ∧ List.Forall₂ (fun x y => (x == y) = true) a.2 b.2)
            A._extra_parameters B._extra_parameters) ∧
      ((∀ a b : Real, (a == b) = true → a = b) →
        (∀ pr ∈ A._parameters, ∀ x ∈ pr.2, (x == x) = true) →
        (∀ pr ∈ A._extra_parameters, ∀ x ∈ pr.2, (x == x) = true) →
        (operator_eq A B = true ↔
          (∀ key, StdMap.find A._parameters key = StdMap.find B._parameters key) ∧
            (∀ key, StdMap.find A._extra_parameters key =
              StdMap.find B._extra_parameters key))) ∧
      operator_ne A B = !(operator_eq A B) := by
  refine ⟨?_, ?_, rfl⟩
  · unfold operator_eq
    rw [Bool.and_eq_true, map_eq_iff_forall2, map_eq_iff_forall2]
  · intro hsound hreflp hrefle
    unfold operator_eq
    rw [Bool.and_eq_true]
    constructor
    · rintro ⟨hp, he⟩
      rw [map_eq_sound hsound _ _ hp, map_eq_sound hsound _ _ he]
      exact ⟨fun _ => rfl, fun _ => rfl⟩
    · rintro ⟨hp, he⟩
      rw [← StdMap.ext_of_find _ _ hAp hBp hp, ← StdMap.ext_of_find _ _ hAe hBe he]
      exact ⟨map_eq_refl _ hreflp, map_eq_refl _ hrefle⟩

/-- A run of C16 as amended: two sets that differ in one step of "a" are not equal. -/
theorem operator_eq_iff_witness :
    operator_ne
        ({ _n_steps := 1, _parameters := [("a", [1, 2])], _extra_parameters := [] } :
          RBParameters Int)
        { _n_steps := 1, _parameters := [("a", [1, 3])], _extra_parameters := [] } =
      !(operator_eq
        ({ _n_steps := 1, _parameters := [("a", [1, 2])], _extra_parameters := [] } :
          RBParameters Int)
        { _n_steps := 1, _parameters := [("a", [1, 3])], _extra_parameters := [] }) :=
  (operator_eq_iff
    ({ _n_steps := 1, _parameters := [("a", [1, 2])], _extra_parameters := [] } :
      RBParameters Int)
    { _n_steps := 1, _parameters := [("a", [1, 3])], _extra_parameters := [] }
    (by simp [StdMap.WF]) (by simp [StdMap.WF]) (by simp [StdMap.WF])
    (by simp [StdMap.WF])).2.2

/-- C16, as stated, fails: the set that `set_value("a", 0, NaN)` leaves on a
default-constructed one holds the same keys with the same vectors as itself, and does not
compare equal to itself. -/
theorem operator_eq_not_reflexive :
    set_value 1000 (empty : RBParameters IEEEReal) "a" 0 IEEEReal.nan =
        (.ok (), nan_parameter) ∧
      operator_eq nan_parameter nan_parameter = false ∧
      operator_ne nan_parameter nan_parameter = true ∧
      ¬ (operator_eq nan_parameter nan_parameter = true ↔
        (∀ key, StdMap.find nan_parameter._parameters key =
            StdMap.find nan_parameter._parameters key) ∧
          (∀ key, StdMap.find nan_parameter._extra_parameters key =
            StdMap.find nan_parameter._extra_parameters key)) := by
  have hfalse : operator_eq nan_parameter nan_parameter = false := by
    simp [operator_eq, nan_parameter, map_eq, vector_eq]
    rfl
  refine ⟨?_, hfalse, ?_, ?_⟩
  · have hd : (default : List IEEEReal) = [] := rfl
    simp [set_value, set_value_helper, StdMap.subscript, StdMap.find, StdMap.assign,
      nan_parameter, empty, hd]
  · unfold operator_ne
    rw [hfalse]
    rfl
  · intro hiff
    have htrue := hiff.mpr ⟨fun _ => rfl, fun _ => rfl⟩
    rw [hfalse] at htrue
    exact absurd htrue (by decide)

/-- C20: after `erase_parameter(name)`, `has_value(name)` is false, and every other primary
parameter, every extra parameter and `_n_steps` are as before; when `name` was not stored the
parameter set is as before. The same holds of `erase_extra_parameter` on the extra map. -/
theorem erase_parameter_spec (self : RBParameters Real) (name : String) :
    (has_value (erase_parameter self name) name = false ∧
        (∀ other, other ≠ name →
          StdMap.find (erase_parameter self name)._parameters other =
            StdMap.find self._parameters other) ∧
        (erase_parameter self name)._extra_parameters = self._extra_parameters ∧
        (erase_parameter self name)._n_steps = self._n_steps ∧
        (has_value self name = false → erase_parameter self name = self) ∧
        (StdMap.WF self._parameters → StdMap.WF (erase_parameter self name)._parameters)) ∧
      (has_extra_value (erase_extra_parameter self name) name = false ∧
        (∀ other, other ≠ name →
          StdMap.find (erase_extra_parameter self name)._extra_parameters other =
            StdMap.find self._extra_parameters other) ∧
        (erase_extra_parameter self name)._parameters = self._parameters ∧
        (erase_extra_parameter self name)._n_steps = self._n_steps ∧
        (has_extra_value self name = false → erase_extra_parameter self name = self) ∧
        (StdMap.WF self._extra_parameters →
          StdMap.WF (erase_extra_parameter self name)._extra_parameters)) := by
  refine ⟨⟨?_, ?_, rfl, rfl, ?_, ?_⟩, ⟨?_, ?_, rfl, rfl, ?_, ?_⟩⟩
  · rw [has_value_eq_false_iff]
    exact StdMap.find_erase_self _ _
  · intro other hne
    exact StdMap.find_erase_ne _ _ _ hne
  · intro h
    rw [has_value_eq_false_iff] at h
    unfold erase_parameter
    rw [StdMap.erase_of_find_eq_none _ _ h]
  · exact StdMap.WF_erase _ _
  · rw [has_extra_value_eq_false_iff]
    exact StdMap.find_erase_self _ _
  · intro other hne
    exact StdMap.find_erase_ne _ _ _ hne
  · intro h
    rw [has_extra_value_eq_false_iff] at h
    unfold erase_extra_parameter
    rw [StdMap.erase_of_find_eq_none _ _ h]
  · exact StdMap.WF_erase _ _

/-- A run of C20: "a" is erased from a set holding "a" and "b"; "b" is found as before. -/
theorem erase_parameter_spec_witness :
    StdMap.find
        (erase_parameter
          ({ _n_steps := 1, _parameters := [("a", [1]), ("b", [2])],
             _extra_parameters := [] } : RBParameters Int) "a")._parameters "b" =
      StdMap.find
        ({ _n_steps := 1, _parameters := [("a", [1]), ("b", [2])],
           _extra_parameters := [] } : RBParameters Int)._parameters "b" :=
  (erase_parameter_spec
    ({ _n_steps := 1, _parameters := [("a", [1]), ("b", [2])],
       _extra_parameters := [] } : RBParameters Int) "a").1.2.1 "b" (by decide)

/-- C21: the members that write extra parameters (`set_extra_value` in both forms,
`push_back_extra_value`, `erase_extra_parameter`) leave `has_value`, `get_step_value`,
`n_parameters` and `n_steps` as they were, and the members that write primary parameters
(`set_value` in both forms, `push_back_value`, `erase_parameter`) leave `has_extra_value` and
`get_extra_step_value` as they were, for every name and step, however the call ends. -/
theorem primary_and_extra_independent [Zero Real] (debug : Bool) (max_size : Nat)
    (self : RBParameters Real) (p : String) (index : Nat) (value : Real) (name : String)
    (step : Nat) :
    (has_value (set_extra_value max_size self p index value).2 name = has_value self name ∧
        get_step_value (set_extra_value max_size self p index value).2 name step =
          get_step_value self name step ∧
        n_parameters (set_extra_value max_size self p index value).2 = n_parameters self ∧
        n_steps debug (set_extra_value max_size self p index value).2 = n_steps debug self) ∧
      (has_value (set_extra_value_legacy self p value) name = has_value self name ∧
        get_step_value (set_extra_value_legacy self p value) name step =
          get_step_value self name step ∧
        n_parameters (set_extra_value_legacy self p value) = n_parameters self ∧
        n_steps debug (set_extra_value_legacy self p value) = n_steps debug self) ∧
      (has_value (push_back_extra_value self p value) name = has_value self name ∧
        get_step_value (push_back_extra_value self p value) name step =
          get_step_value self name step ∧
        n_parameters (push_back_extra_value self p value) = n_parameters self ∧
        n_steps debug (push_back_extra_value self p value) = n_steps debug self) ∧
      (has_value (erase_extra_parameter self p) name = has_value self name ∧
        get_step_value (erase_extra_parameter self p) name step =
          get_step_value self name step ∧
        n_parameters (erase_extra_parameter self p) = n_parameters self ∧
        n_steps debug (erase_extra_parameter self p) = n_steps debug self) ∧
      (has_extra_value (set_value max_size self p index value).2 name =
          has_extra_value self name ∧
        get_extra_step_value (set_value max_size self p index value).2 name step =
          get_extra_step_value self name step) ∧
      (has_extra_value (set_value_legacy self p value) name = has_extra_value self name ∧
        get_extra_step_value (set_value_legacy self p value) name step =
          get_extra_step_value self name step) ∧
      (has_extra_value (push_back_value self p value) name = has_extra_value self name ∧
        get_extra_step_value (push_back_value self p value) name step =
          get_extra_step_value self name step) ∧
      (has_extra_value (erase_parameter self p) name = has_extra_value self name ∧
        get_extra_step_value (erase_parameter self p) name step =
          get_extra_step_value self name step) :=
  ⟨⟨rfl, rfl, rfl, rfl⟩, ⟨rfl, rfl, rfl, rfl⟩, ⟨rfl, rfl, rfl, rfl⟩, ⟨rfl, rfl, rfl, rfl⟩,
    ⟨rfl, rfl⟩, ⟨rfl, rfl⟩, ⟨rfl, rfl⟩, ⟨rfl, rfl⟩⟩

/-- C26, as amended: `set_value(p, i, v)` returns normally exactly when `i` is at most the old
length of the vector stored for `p`, an absent `p` counting as length 0, or `i + 1` is a
`std::size_t` not above what `resize` accepts. After a call that returns normally the vector
stored for `p` has length `max(old length, i + 1)`; slot `i` holds `v`, every other slot below
the old length holds what it held, every slot from the old length up to `i` holds 0, and every
other parameter, the extra map and `_n_steps` are as before. The same holds of
`set_extra_value` on the extra map. -/
theorem set_value_autogrow [Zero Real] (max_size : Nat) (self : RBParameters Real)
    (p : String) (i : Nat) (v : Real) :
    (((set_value max_size self p i v).1 = .ok () ↔
          (i ≤ ((StdMap.find self._parameters p).getD []).length ∨
            (i + 1 < SIZE_RANGE ∧ i + 1 ≤ max_size))) ∧
        ((set_value max_size self p i v).1 = .ok () →
          (∃ new_vec,
            StdMap.find (set_value max_size self p i v).2._parameters p = some new_vec ∧
            new_vec.length = max ((StdMap.find self._parameters p).getD []).length (i + 1) ∧
            new_vec[i]? = some v ∧
            (∀ j, j ≠ i → j < ((StdMap.find self._parameters p).getD []).length →
              new_vec[j]? = ((StdMap.find self._parameters p).getD [])[j]?) ∧
            (∀ j, ((StdMap.find self._parameters p).getD []).length ≤ j → j < i →
              new_vec[j]? = some 0)) ∧
          (∀ other, other ≠ p →
            StdMap.find (set_value max_size self p i v).2._parameters other =
              StdMap.find self._parameters other) ∧
          (set_value max_size self p i v).2._extra_parameters = self._extra_parameters ∧
          (set_value max_size self p i v).2._n_steps = self._n_steps)) ∧
      (((set_extra_value max_size self p i v).1 = .ok () ↔
          (i ≤ ((StdMap.find self._extra_parameters p).getD []).length ∨
            (i + 1 < SIZE_RANGE ∧ i + 1 ≤ max_size))) ∧
        ((set_extra_value max_size self p i v).1 = .ok () →
          (∃ new_vec,
            StdMap.find (set_extra_value max_size self p i v).2._extra_parameters p =
              some new_vec ∧
            new_vec.length =
              max ((StdMap.find self._extra_parameters p).getD []).length (i + 1) ∧
            new_vec[i]? = some v ∧
            (∀ j, j ≠ i → j < ((StdMap.find self._extra_parameters p).getD []).length →
              new_vec[j]? = ((StdMap.find self._extra_parameters p).getD [])[j]?) ∧
            (∀ j, ((StdMap.find self._extra_parameters p).getD []).length ≤ j → j < i →
              new_vec[j]? = some 0)) ∧
          (∀ other, other ≠ p →
            StdMap.find (set_extra_value max_size self p i v).2._extra_parameters other =
              StdMap.find self._extra_parameters other) ∧
          (set_extra_value max_size self p i v).2._parameters = self._parameters ∧
          (set_extra_value max_size self p i v).2._n_steps = self._n_steps)) :=
  ⟨⟨⟨set_value_helper_fits_of_ok max_size self._parameters p i v,
        fun hfit => (set_value_helper_effect max_size self._parameters p i v hfit).1⟩,
      fun hok =>
        ⟨(set_value_helper_effect max_size self._parameters p i v
            (set_value_helper_fits_of_ok max_size self._parameters p i v hok)).2.1,
          (set_value_helper_effect max_size self._parameters p i v
            (set_value_helper_fits_of_ok max_size self._parameters p i v hok)).2.2,
          rfl, rfl⟩⟩,
    ⟨⟨set_value_helper_fits_of_ok max_size self._extra_parameters p i v,
        fun hfit => (set_value_helper_effect max_size self._extra_parameters p i v hfit).1⟩,
      fun hok =>
        ⟨(set_value_helper_effect max_size self._extra_parameters p i v
            (set_value_helper_fits_of_ok max_size self._extra_parameters p i v hok)).2.1,
          (set_value_helper_effect max_size self._extra_parameters p i v
            (set_value_helper_fits_of_ok max_size self._extra_parameters p i v hok)).2.2,
          rfl, rfl⟩⟩⟩

/-- A run of C26 as amended: "a" holds one step and step 3 is written; "b" is found as
before. -/
theorem set_value_autogrow_witness :
    StdMap.find
        (set_value 1000
          ({ _n_steps := 1, _parameters := [("a", [1]), ("b", [2])],
             _extra_parameters := [] } : RBParameters Int) "a" 3 9).2._parameters "b" =
      StdMap.find
        ({ _n_steps := 1, _parameters := [("a", [1]), ("b", [2])],
           _extra_parameters := [] } : RBParameters Int)._parameters "b" :=
  ((set_value_autogrow 1000
    ({ _n_steps := 1, _parameters := [("a", [1]), ("b", [2])],
       _extra_parameters := [] } : RBParameters Int) "a" 3 9).1.2
    ((set_value_autogrow 1000
      ({ _n_steps := 1, _parameters := [("a", [1]), ("b", [2])],
         _extra_parameters := [] } : RBParameters Int) "a" 3 9).1.1.mpr
      (Or.inr ⟨by decide, by decide⟩))).2.1 "b" (by decide)

/-- C26, as stated, fails: where `resize` accepts at most `2 ^ 60 - 1` elements, the call
`set_value("k", 2 ^ 61, 7)` on an empty parameter set ends in `std::length_error` and leaves
under "k" no vector of length `max(0, 2 ^ 61 + 1)`: the one it leaves is empty. -/
theorem set_value_past_max_size_leaves_empty :
    (set_value 1152921504606846975 (empty : RBParameters Int) "k" 2305843009213693952 7).1 ≠
        .ok () ∧
      StdMap.find
          (set_value 1152921504606846975 (empty : RBParameters Int) "k"
            2305843009213693952 7).2._parameters "k" = some [] ∧
      ¬ ∃ new_vec,
        StdMap.find
            (set_value 1152921504606846975 (empty : RBParameters Int) "k"
              2305843009213693952 7).2._parameters "k" = some new_vec ∧
          new_vec.length =
            max ((StdMap.find (empty : RBParameters Int)._parameters "k").getD []).length
              (2305843009213693952 + 1) := by
  have h := set_value_on_empty_throws 1152921504606846975 "k" 2305843009213693952 (7 : Int)
    (by norm_num) (by unfold SIZE_RANGE; norm_num)
  refine ⟨?_, h.2, ?_⟩
  · rw [h.1]
    exact fun hne => Except.noConfusion hne
  · rintro ⟨new_vec, hfind, hlen⟩
    rw [h.2] at hfind
    simp only [Option.some.injEq] at hfind
    subst hfind
    have hle : 2305843009213693952 + 1 ≤
        max ((StdMap.find (empty : RBParameters Int)._parameters "k").getD []).length
          (2305843009213693952 + 1) := le_max_right _ _
    rw [← hlen] at hle
    simp at hle

/-- C27, as amended: in every parameter set built from the constructors by `set_value` and
`set_extra_value` calls that return normally, `push_back_value`, `push_back_extra_value`, the
two erasures, `set_n_steps`, `clear` and `+=`, every vector stored in the primary and in the
extra map has at least one element; so `get_value(name)` returns whenever `has_value(name)`
holds, and `get_extra_value(name)` returns whenever `has_extra_value(name)` holds. -/
theorem reachable_values_nonempty [Zero Real] (max_size : Nat) (self : RBParameters Real)
    (h : Reachable max_size false self) :
    (∀ pr ∈ self._parameters, 1 ≤ pr.2.length) ∧
      (∀ pr ∈ self._extra_parameters, 1 ≤ pr.2.length) ∧
      (∀ name, has_value self name = true → ∃ x, get_value self name = .ok x) ∧
      (∀ name, has_extra_value self name = true → ∃ x, get_extra_value self name = .ok x) := by
  obtain ⟨hp, he⟩ := reachable_lengths max_size self h
  refine ⟨hp, he, ?_, ?_⟩
  · intro name hname
    cases hfind : StdMap.find self._parameters name with
    | none =>
      rw [(has_value_eq_false_iff self name).mpr hfind] at hname
      exact absurd hname (by decide)
    | some vec =>
      have hlen := hp (name, vec) (StdMap.mem_of_find_eq_some _ _ _ hfind)
      cases vec with
      | nil => simp at hlen
      | cons first rest =>
        refine ⟨first, ?_⟩
        unfold get_value
        rw [get_step_value_eq_ok_iff]
        exact ⟨_, hfind, by simp⟩
  · intro name hname
    cases hfind : StdMap.find self._extra_parameters name with
    | none =>
      rw [(has_extra_value_eq_false_iff self name).mpr hfind] at hname
      exact absurd hname (by decide)
    | some vec =>
      have hlen := he (name, vec) (StdMap.mem_of_find_eq_some _ _ _ hfind)
      cases vec with
      | nil => simp at hlen
      | cons first rest =>
        refine ⟨first, ?_⟩
        unfold get_extra_value StdMap.map_find
        rw [hfind]

/-- A run of C27 as amended: "t" is pushed once onto a default-constructed set and then
read. -/
theorem reachable_values_nonempty_witness :
    ∃ x, get_value (push_back_value (empty : RBParameters Int) "t" 5) "t" = .ok x :=
  (reachable_values_nonempty 1000 (push_back_value (empty : RBParameters Int) "t" 5)
    (Reachable.push_back_value _ _ _ Reachable.default_constructor)).2.2.1 "t"
    (by simp [has_value, StdMap.count, find_push_back_value_self])

/-- C27, as stated, fails: where `resize` accepts at most `2 ^ 60 - 1` elements, a caller
who catches the `std::length_error` of `set_value("p", 2 ^ 61, 7)` on a default-constructed
set holds a set in which "p" is mapped to an empty vector: `has_value("p")` holds and
`get_value("p")` does not return. -/
theorem reachable_after_throw_holds_empty_vector :
    Reachable 1152921504606846975 true
        (set_value 1152921504606846975 (empty : RBParameters Int) "p"
          2305843009213693952 7).2 ∧
      has_value
          (set_value 1152921504606846975 (empty : RBParameters Int) "p"
            2305843009213693952 7).2 "p" = true ∧
      ("p", ([] : List Int)) ∈
          (set_value 1152921504606846975 (empty : RBParameters Int) "p"
            2305843009213693952 7).2._parameters ∧
      ∀ x,
        get_value
            (set_value 1152921504606846975 (empty : RBParameters Int) "p"
              2305843009213693952 7).2 "p" ≠ .ok x := by
  have h := set_value_on_empty_throws 1152921504606846975 "p" 2305843009213693952 (7 : Int)
    (by norm_num) (by unfold SIZE_RANGE; norm_num)
  refine ⟨Reachable.set_value _ _ _ _ Reachable.default_constructor (Or.inr ⟨rfl, h.1⟩),
    ?_, StdMap.mem_of_find_eq_some _ _ _ h.2, ?_⟩
  · cases hv : has_value
        (set_value 1152921504606846975 (empty : RBParameters Int) "p"
          2305843009213693952 7).2 "p" with
    | true => rfl
    | false =>
      rw [has_value_eq_false_iff, h.2] at hv
      exact Option.noConfusion hv
  · intro x hget
    unfold get_value at hget
    rw [get_step_value_eq_ok_iff] at hget
    obtain ⟨vec, hvec, hstep⟩ := hget
    rw [h.2] at hvec
    simp only [Option.some.injEq] at hvec
    subst hvec
    simp at hstep

/-- C28, as amended: when the primary vectors of `A` all have one length and those of `B` all
have one length, both lengths below `2 ^ 32`, and `A += B` returns normally, the primary
vectors of `A` afterwards all have one length. -/
theorem operator_plus_assign_keeps_common_length (debug : Bool) (A B : RBParameters Real)
    (a b : Nat) (hA : ∀ pr ∈ A._parameters, pr.2.length = a)
    (hB : ∀ pr ∈ B._parameters, pr.2.length = b)
    (ha : a < UINT_RANGE) (hb : b < UINT_RANGE)
    (hok : (operator_plus_assign debug A B).1 = .ok ()) :
    ∃ c, ∀ pr ∈ (operator_plus_assign debug A B).2._parameters, pr.2.length = c := by
  rcases operator_plus_assign_cases debug A B with ⟨hne, _⟩ | ⟨_, ⟨n, hnA, hnB⟩, hres⟩
  · exact absurd hok hne
  · rw [hres]
    simp only []
    cases hAp : A._parameters with
    | nil =>
      refine ⟨b, fun pr hpr => ?_⟩
      rcases mem_merge _ _ _ hpr with h | h
      · simp at h
      · exact hB pr h
    | cons hdA ra =>
      cases hBp : B._parameters with
      | nil =>
        refine ⟨a, fun pr hpr => ?_⟩
        rw [← hAp] at hpr
        exact hA pr hpr
      | cons hdB rb =>
        have h1 := (n_steps_cons debug A hdA ra hAp n hnA).1
        have h2 := (n_steps_cons debug B hdB rb hBp n hnB).1
        have h3 := hA hdA (by rw [hAp]; exact List.mem_cons_self _ _)
        have h4 := hB hdB (by rw [hBp]; exact List.mem_cons_self _ _)
        rw [h3, Nat.mod_eq_of_lt ha] at h1
        rw [h4, Nat.mod_eq_of_lt hb] at h2
        have hab : a = b := by omega
        refine ⟨a, fun pr hpr => ?_⟩
        rcases mem_merge _ _ _ hpr with h | h
        · rw [← hAp] at h
          exact hA pr h
        · rw [← hBp] at h
          rw [hab]
          exact hB pr h

/-- A run of C28 as amended: `A` holds "a" and `B` holds "b", two steps each; after `A += B`
all vectors of `A` have one length. -/
theorem operator_plus_assign_keeps_common_length_witness :
    ∃ c, ∀ pr ∈ (operator_plus_assign false
        ({ _n_steps := 1, _parameters := [("a", [1, 2])], _extra_parameters := [] } :
          RBParameters Int)
        { _n_steps := 1, _parameters := [("b", [3, 4])], _extra_parameters := [] }).2._parameters,
      pr.2.length = c :=
  operator_plus_assign_keeps_common_length false
    ({ _n_steps := 1, _parameters := [("a", [1, 2])], _extra_parameters := [] } :
      RBParameters Int)
    { _n_steps := 1, _parameters := [("b", [3, 4])], _extra_parameters := [] } 2 2
    (by simp) (by simp) (by decide) (by decide)
    (by simp [operator_plus_assign, n_steps, UINT_RANGE])

/-- C28, as stated, fails: `A` stores "a" with `2 ^ 32 + 1` steps and `B` stores "b" with one
step, as one `set_value` on a default-constructed set leaves them; each holds vectors of one
length, `A += B` returns normally, with `DEBUG` and without,
and afterwards `A` holds a vector of `2 ^ 32 + 1` steps and one of 1 step. -/
theorem operator_plus_assign_mixes_lengths :
    set_value 1152921504606846975 (empty : RBParameters ℚ) "a" 4294967296 0 =
        (.ok (), one_parameter "a" 4294967297) ∧
      set_value 1152921504606846975 (empty : RBParameters ℚ) "b" 0 0 =
        (.ok (), one_parameter "b" 1) ∧
      (∀ pr ∈ (one_parameter "a" 4294967297)._parameters, pr.2.length = 4294967297) ∧
      (∀ pr ∈ (one_parameter "b" 1)._parameters, pr.2.length = 1) ∧
      (operator_plus_assign false (one_parameter "a" 4294967297) (one_parameter "b" 1)).1 =
        .ok () ∧
      (¬ ∃ c, ∀ pr ∈ (operator_plus_assign false (one_parameter "a" 4294967297)
          (one_parameter "b" 1)).2._parameters, pr.2.length = c) ∧
      (operator_plus_assign true (one_parameter "a" 4294967297) (one_parameter "b" 1)).1 =
        .ok () ∧
      ¬ ∃ c, ∀ pr ∈ (operator_plus_assign true (one_parameter "a" 4294967297)
          (one_parameter "b" 1)).2._parameters, pr.2.length = c :=
  ⟨set_value_on_empty_eq_one_parameter 1152921504606846975 "a" 4294967296
      ⟨by unfold SIZE_RANGE; norm_num, by norm_num⟩,
    set_value_on_empty_eq_one_parameter 1152921504606846975 "b" 0
      ⟨by unfold SIZE_RANGE; norm_num, by norm_num⟩,
    one_parameter_lengths "a" 4294967297, one_parameter_lengths "b" 1,
    (operator_plus_assign_one_parameter_ragged false 4294967297 rfl (by decide)).1,
    (operator_plus_assign_one_parameter_ragged false 4294967297 rfl (by decide)).2.1,
    (operator_plus_assign_one_parameter_ragged true 4294967297 rfl (by decide)).1,
    (operator_plus_assign_one_parameter_ragged true 4294967297 rfl (by decide)).2.1⟩

/-- C29, as amended: when `n_steps()` of `A` and of `B` return one value and, in a `DEBUG`
build, every primary vector of `A` and of `B` is shorter than `2 ^ 32`, `A += B` returns
normally and `n_steps()` of `A` afterwards returns that value, also when `A` or `B` stores no
primary parameter and its count is `_n_steps`. -/
theorem operator_plus_assign_keeps_n_steps (debug : Bool) (A B : RBParameters Real) (n : Nat)
    (hAw : StdMap.WF A._parameters) (hBw : StdMap.WF B._parameters)
    (hA : n_steps debug A = .ok n) (hB : n_steps debug B = .ok n)
    (hbound : debug = true →
      (∀ pr ∈ A._parameters, pr.2.length < UINT_RANGE) ∧
        (∀ pr ∈ B._parameters, pr.2.length < UINT_RANGE)) :
    (operator_plus_assign debug A B).1 = .ok () ∧
      n_steps debug (operator_plus_assign debug A B).2 = .ok n := by
  have hrun := operator_plus_assign_of_n_steps debug A B n n hA hB
  simp only [ne_eq, not_true_eq_false, if_false] at hrun
  rw [hrun]
  refine ⟨rfl, ?_⟩
  cases hBp : B._parameters with
  | nil =>
    rw [← hA]
    exact n_steps_congr debug _ _ rfl rfl
  | cons hdB rb =>
    obtain ⟨hdM, rm, hM, hlen⟩ := merge_head_length A B debug n hAw hBw hA hB hdB rb hBp
    rw [hBp] at hM
    rw [← hlen]
    apply n_steps_eq_ok_of_cons debug _ hdM rm hM
    intro hdebug
    subst hdebug
    have hall : ∀ pr ∈ List.foldl
        (fun m pr => StdMap.assign (StdMap.subscript m pr.1).1 pr.1 pr.2) A._parameters
        (hdB :: rb), pr.2.length = n := by
      intro pr hpr
      rcases mem_merge _ _ _ hpr with h | h
      · have h1 := n_steps_debug_all A n hA pr h
        rw [Nat.mod_eq_of_lt ((hbound rfl).1 pr h)] at h1
        exact h1
      · rw [← hBp] at h
        have h1 := n_steps_debug_all B n hB pr h
        rw [Nat.mod_eq_of_lt ((hbound rfl).2 pr h)] at h1
        exact h1
    intro pr hpr
    rw [hall pr hpr, hall hdM (by rw [hM]; exact List.mem_cons_self _ _)]

/-- A run of C29 as amended: `A` stores nothing and was told two steps, `B` holds "b" with two
steps. -/
theorem operator_plus_assign_keeps_n_steps_witness :
    n_steps true (operator_plus_assign true
        ({ _n_steps := 2, _parameters := [], _extra_parameters := [] } : RBParameters Int)
        { _n_steps := 1, _parameters := [("b", [3, 4])], _extra_parameters := [] }).2 =
      .ok 2 :=
  (operator_plus_assign_keeps_n_steps true
    ({ _n_steps := 2, _parameters := [], _extra_parameters := [] } : RBParameters Int)
    { _n_steps := 1, _parameters := [("b", [3, 4])], _extra_parameters := [] } 2
    (by simp [StdMap.WF]) (by simp [StdMap.WF]) rfl rfl
    (fun _ => ⟨by simp, by simp [UINT_RANGE]⟩)).2

/-- C29, as stated, fails in a `DEBUG` build: `A` stores "a" with `2 ^ 32 + 1` steps and `B`
stores "b" with one step, as one `set_value` on a default-constructed set leaves them; `n_steps()` of each returns 1 and `A += B` returns normally, and
`n_steps()` of `A` afterwards fails its assertion. -/
theorem operator_plus_assign_then_n_steps_asserts :
    set_value 1152921504606846975 (empty : RBParameters ℚ) "a" 4294967296 0 =
        (.ok (), one_parameter "a" 4294967297) ∧
      set_value 1152921504606846975 (empty : RBParameters ℚ) "b" 0 0 =
        (.ok (), one_parameter "b" 1) ∧
      n_steps true (one_parameter "a" 4294967297) = .ok 1 ∧
      n_steps true (one_parameter "b" 1) = .ok 1 ∧
      (operator_plus_assign true (one_parameter "a" 4294967297) (one_parameter "b" 1)).1 =
        .ok () ∧
      n_steps true
          (operator_plus_assign true (one_parameter "a" 4294967297)
            (one_parameter "b" 1)).2 = .error .assertion_failure :=
  ⟨set_value_on_empty_eq_one_parameter 1152921504606846975 "a" 4294967296
      ⟨by unfold SIZE_RANGE; norm_num, by norm_num⟩,
    set_value_on_empty_eq_one_parameter 1152921504606846975 "b" 0
      ⟨by unfold SIZE_RANGE; norm_num, by norm_num⟩,
    n_steps_one_parameter true "a" 4294967297, n_steps_one_parameter true "b" 1,
    (operator_plus_assign_one_parameter_ragged true 4294967297 rfl (by decide)).1,
    (operator_plus_assign_one_parameter_ragged true 4294967297 rfl (by decide)).2.2⟩

/-- C31: `operator==` does not look at `_n_steps`: two default-constructed parameter sets
given different values by `set_n_steps` store no parameter and compare equal, while their
`n_steps()` return the two different values; so `A == B` does not imply equal `n_steps()`. -/
theorem operator_eq_ignores_n_steps [BEq Real] (debug : Bool) :
    (∀ n m : Nat, n ≠ m →
        operator_eq (set_n_steps (empty : RBParameters Real) n)
            (set_n_steps (empty : RBParameters Real) m) = true ∧
          operator_ne (set_n_steps (empty : RBParameters Real) n)
            (set_n_steps (empty : RBParameters Real) m) = false ∧
          n_steps debug (set_n_steps (empty : RBParameters Real) n) = .ok n ∧
          n_steps debug (set_n_steps (empty : RBParameters Real) m) = .ok m ∧
          n_steps debug (set_n_steps (empty : RBParameters Real) n) ≠
            n_steps debug (set_n_steps (empty : RBParameters Real) m)) ∧
      (∃ A B : RBParameters Real,
        operator_eq A B = true ∧ n_steps debug A ≠ n_steps debug B) := by
  have hpair : ∀ n m : Nat, n ≠ m →
      operator_eq (set_n_steps (empty : RBParameters Real) n)
          (set_n_steps (empty : RBParameters Real) m) = true ∧
        operator_ne (set_n_steps (empty : RBParameters Real) n)
          (set_n_steps (empty : RBParameters Real) m) = false ∧
        n_steps debug (set_n_steps (empty : RBParameters Real) n) = .ok n ∧
        n_steps debug (set_n_steps (empty : RBParameters Real) m) = .ok m ∧
        n_steps debug (set_n_steps (empty : RBParameters Real) n) ≠
          n_steps debug (set_n_steps (empty : RBParameters Real) m) := by
    intro n m hnm
    have hn : n_steps debug (set_n_steps (empty : RBParameters Real) n) = .ok n := rfl
    have hm : n_steps debug (set_n_steps (empty : RBParameters Real) m) = .ok m := rfl
    have heq : operator_eq (set_n_steps (empty : RBParameters Real) n)
        (set_n_steps (empty : RBParameters Real) m) = true := by
      simp [operator_eq, map_eq, set_n_steps, empty]
    refine ⟨heq, ?_, hn, hm, ?_⟩
    · unfold operator_ne
      rw [heq]
      rfl
    · rw [hn, hm]
      intro h
      exact hnm (Except.ok.inj h)
  refine ⟨hpair, set_n_steps empty 1, set_n_steps empty 2, ?_⟩
  exact ⟨(hpair 1 2 (by decide)).1, (hpair 1 2 (by decide)).2.2.2.2⟩

/-- A run of C31: sets told 2 and 5 steps compare equal. -/
theorem operator_eq_ignores_n_steps_witness :
    operator_eq (set_n_steps (empty : RBParameters Int) 2)
        (set_n_steps (empty : RBParameters Int) 5) = true :=
  ((operator_eq_ignores_n_steps false).1 2 5 (by decide)).1

end RBParameters

/-! ## Lemmas on `RBThetaExpansion` -/

namespace RBThetaExpansion

variable {Real Number : Type}

theorem vector_subscript_of_some {T : Type} (vec : List T) (i : Nat) (x : T)
    (h : vec[i]? = some x) : vector_subscript vec i = .ok x := by
  unfold vector_subscript
  rw [h]

/-- One more turn of the loop of `output_index_1D`. -/
theorem output_index_1D_succ (self : RBThetaExpansion Real Number) (n q_l : Nat) :
    output_index_1D self (n + 1) q_l =
      match output_index_1D self n q_l with
      | .error e => .error e
      | .ok index =>
        match vector_subscript self._output_theta_vector n with
        | .error e => .error e
        | .ok vec => .ok ((index + vec.length) % UINT_RANGE) := by
  unfold output_index_1D
  rw [List.range_succ, List.foldlM_append]
  generalize List.foldlM (m := Except Error) _ q_l (List.range n) = r
  cases r with
  | error e => rfl
  | ok index =>
    simp only [List.foldlM, bind, Except.bind, pure, Except.pure]
    cases vector_subscript self._output_theta_vector n <;> rfl

/-- The loop of `output_index_1D` reads the first `n` outputs only. -/
theorem output_index_1D_congr (s t : RBThetaExpansion Real Number) (n q_l : Nat)
    (h : ∀ i, i < n → s._output_theta_vector[i]? = t._output_theta_vector[i]?) :
    output_index_1D s n q_l = output_index_1D t n q_l := by
  induction n with
  | zero => rfl
  | succ n ih =>
    rw [output_index_1D_succ, output_index_1D_succ, ih (fun i hi => h i (by omega))]
    unfold vector_subscript
    rw [h n (by omega)]

/-- The value of `output_index_1D` for `n` within the outputs and `q_l` an `unsigned int`. -/
theorem output_index_1D_eq_sum (self : RBThetaExpansion Real Number) (n q_l : Nat)
    (hn : n ≤ self.get_n_outputs) (hq : q_l < UINT_RANGE) :
    output_index_1D self n q_l =
      .ok ((((self._output_theta_vector.take n).map List.length).sum + q_l) % UINT_RANGE) := by
  induction n with
  | zero =>
    simp [output_index_1D, Nat.mod_eq_of_lt hq, pure, Except.pure]
  | succ n ih =>
    have hlt : n < self._output_theta_vector.length := hn
    rw [output_index_1D_succ, ih (Nat.le_of_lt hlt)]
    simp only []
    rw [vector_subscript_of_some _ n _ (List.getElem?_eq_getElem hlt)]
    simp only []
    rw [List.take_succ, List.getElem?_eq_getElem hlt]
    simp only [Option.toList_some, List.map_append, List.map_cons, List.map_nil, List.sum_append,
      List.sum_cons, List.sum_nil, Nat.add_zero]
    congr 1
    rw [Nat.mod_add_mod]
    congr 1
    omega

/-- The outputs after the `RBTheta *` form of `attach_output_theta`. -/
theorem attach_output_theta_outputs (asserts : Bool) (self : RBThetaExpansion Real Number)
    (theta_q_l : Option (RBTheta Real Number)) :
    (attach_output_theta asserts self theta_q_l).2._output_theta_vector =
        self._output_theta_vector ∨
      (attach_output_theta asserts self theta_q_l).2._output_theta_vector =
        self._output_theta_vector ++ [[theta_q_l]] := by
  unfold attach_output_theta
  split_ifs
  · exact Or.inl rfl
  · exact Or.inr rfl

/-- The batch form walks past a run of non-null handles, appending them. -/
theorem attach_multiple_A_theta_append (asserts : Bool) (pre : List (RBTheta Real Number))
    (rest : List (Option (RBTheta Real Number))) (self : RBThetaExpansion Real Number) :
    attach_multiple_A_theta asserts self (pre.map some ++ rest) =
      attach_multiple_A_theta asserts
        { self with _A_theta_vector := self._A_theta_vector ++ pre.map some } rest := by
  induction pre generalizing self with
  | nil => simp
  | cons h tl ih =>
    rw [List.map_cons, List.cons_append, attach_multiple_A_theta]
    simp [ih]

/-- The batch form for the right-hand side walks past a run of non-null handles. -/
theorem attach_multiple_F_theta_append (asserts : Bool) (pre : List (RBTheta Real Number))
    (rest : List (Option (RBTheta Real Number))) (self : RBThetaExpansion Real Number) :
    attach_multiple_F_theta asserts self (pre.map some ++ rest) =
      attach_multiple_F_theta asserts
        { self with _F_theta_vector := self._F_theta_vector ++ pre.map some } rest := by
  induction pre generalizing self with
  | nil => simp
  | cons h tl ih =>
    rw [List.map_cons, List.cons_append, attach_multiple_F_theta]
    simp [ih]

/-- Without assertions the batch form appends every pointer, null or not. -/
theorem attach_multiple_A_theta_unchecked (handles : List (Option (RBTheta Real Number)))
    (self : RBThetaExpansion Real Number) :
    attach_multiple_A_theta false self handles =
      (.ok (), { self with _A_theta_vector := self._A_theta_vector ++ handles }) := by
  induction handles generalizing self with
  | nil => simp [attach_multiple_A_theta]
  | cons h tl ih =>
    unfold attach_multiple_A_theta
    rw [ih]
    simp

/-- Without assertions the batch form for the right-hand side appends every pointer. -/
theorem attach_multiple_F_theta_unchecked (handles : List (Option (RBTheta Real Number)))
    (self : RBThetaExpansion Real Number) :
    attach_multiple_F_theta false self handles =
      (.ok (), { self with _F_theta_vector := self._F_theta_vector ++ handles }) := by
  induction handles generalizing self with
  | nil => simp [attach_multiple_F_theta]
  | cons h tl ih =>
    unfold attach_multiple_F_theta
    rw [ih]
    simp

end RBThetaExpansion

/-! ## Claims on `RBThetaExpansion` -/

namespace RBThetaExpansion

variable {Real Number : Type}

/-- C4, as amended: for `output_index ≤ n_outputs()` and every `unsigned int` `q_l`,
`output_index_1D(output_index, q_l)` is the sum of the term counts of the outputs before
`output_index`, plus `q_l`, reduced modulo `2 ^ 32`; it is that sum itself whenever the sum is
below `2 ^ 32`. With term counts `[2, 0, 3]` it maps `(0,1)` to 1, `(2,0)` to 2, `(2,2)` to 4. -/
theorem output_index_1D_spec (self : RBThetaExpansion Real Number) (output_index q_l : Nat)
    (hn : output_index ≤ self.get_n_outputs) (hq : q_l < UINT_RANGE) :
    output_index_1D self output_index q_l =
        .ok ((((self._output_theta_vector.take output_index).map List.length).sum + q_l) %
          UINT_RANGE) ∧
      (((self._output_theta_vector.take output_index).map List.length).sum + q_l < UINT_RANGE →
        output_index_1D self output_index q_l =
          .ok (((self._output_theta_vector.take output_index).map List.length).sum + q_l)) ∧
      (self._output_theta_vector.map List.length = [2, 0, 3] →
        output_index_1D self 0 1 = .ok 1 ∧ output_index_1D self 2 0 = .ok 2 ∧
          output_index_1D self 2 2 = .ok 4) := by
  refine ⟨output_index_1D_eq_sum self output_index q_l hn hq, ?_, ?_⟩
  · intro hsum
    rw [output_index_1D_eq_sum self output_index q_l hn hq, Nat.mod_eq_of_lt hsum]
  · intro hcounts
    have hlen : self.get_n_outputs = 3 := by
      have := congrArg List.length hcounts
      simpa [get_n_outputs] using this
    have htake : ∀ k, ((self._output_theta_vector.take k).map List.length) =
        ([2, 0, 3] : List Nat).take k := by
      intro k
      rw [← hcounts, List.map_take]
    refine ⟨?_, ?_, ?_⟩
    · rw [output_index_1D_eq_sum self 0 1 (by omega) (by decide), htake]
      rfl
    · rw [output_index_1D_eq_sum self 2 0 (by omega) (by decide), htake]
      rfl
    · rw [output_index_1D_eq_sum self 2 2 (by omega) (by decide), htake]
      rfl

/-- A run of C4 as amended: three outputs of 2, 0 and 3 null-free terms; `(2, 2)` maps to 4. -/
theorem output_index_1D_spec_witness :
    output_index_1D
        ({ _A_theta_vector := [], _F_theta_vector := [],
           _output_theta_vector :=
            [[some ⟨fun _ => 1⟩, some ⟨fun _ => 2⟩], [],
              [some ⟨fun _ => 3⟩, some ⟨fun _ => 4⟩, some ⟨fun _ => 5⟩]] } :
          RBThetaExpansion Int Int) 2 2 = .ok 4 :=
  ((output_index_1D_spec
      ({ _A_theta_vector := [], _F_theta_vector := [],
         _output_theta_vector :=
          [[some ⟨fun _ => 1⟩, some ⟨fun _ => 2⟩], [],
            [some ⟨fun _ => 3⟩, some ⟨fun _ => 4⟩, some ⟨fun _ => 5⟩]] } :
        RBThetaExpansion Int Int) 2 2 (by decide) (by decide)).2.2 rfl).2.2

/-- C4, as stated, fails: with one output of one term, `output_index = 1 ≤ n_outputs()` and
`q_l = 4294967295`, the sum of the term counts before output 1 plus `q_l` is 4294967296, and
`output_index_1D` returns 0. -/
theorem output_index_1D_wraps :
    (1 ≤ get_n_outputs
        ({ _A_theta_vector := [], _F_theta_vector := [],
           _output_theta_vector := [[some ⟨fun _ => 1⟩]] } : RBThetaExpansion Int Int)) ∧
      output_index_1D
        ({ _A_theta_vector := [], _F_theta_vector := [],
           _output_theta_vector := [[some ⟨fun _ => 1⟩]] } : RBThetaExpansion Int Int)
        1 4294967295 = .ok 0 ∧
      output_index_1D
        ({ _A_theta_vector := [], _F_theta_vector := [],
           _output_theta_vector := [[some ⟨fun _ => 1⟩]] } : RBThetaExpansion Int Int)
        1 4294967295 ≠
        .ok ((([[some (⟨fun _ => 1⟩ : RBTheta Int Int)]].take 1).map List.length).sum +
          4294967295) := by
  have hrun : output_index_1D
      ({ _A_theta_vector := [], _F_theta_vector := [],
         _output_theta_vector := [[some ⟨fun _ => 1⟩]] } : RBThetaExpansion Int Int)
      1 4294967295 = .ok 0 := by
    rw [output_index_1D_eq_sum _ 1 4294967295 (by decide) (by decide)]
    rfl
  refine ⟨by decide, hrun, ?_⟩
  rw [hrun]
  simp

/-- C5: appending an output, in any of the three forms of `attach_output_theta` and with any
handles, leaves `output_index_1D(output_index, q_l)` as it was for every `output_index` below the
former `n_outputs()` and every `q_l`. -/
theorem attach_output_theta_keeps_output_index_1D (asserts : Bool)
    (self : RBThetaExpansion Real Number) (handles : List (Option (RBTheta Real Number)))
    (handle : Option (RBTheta Real Number)) (output_index q_l : Nat)
    (hn : output_index < self.get_n_outputs) :
    output_index_1D (attach_output_theta_vector self handles) output_index q_l =
        output_index_1D self output_index q_l ∧
      output_index_1D (attach_output_theta_unique self handles) output_index q_l =
        output_index_1D self output_index q_l ∧
      output_index_1D (attach_output_theta asserts self handle).2 output_index q_l =
        output_index_1D self output_index q_l := by
  have hlen : output_index < self._output_theta_vector.length := hn
  have happ : ∀ (extra : List (List (Option (RBTheta Real Number)))) (i : Nat),
      i < output_index →
        (self._output_theta_vector ++ extra)[i]? = self._output_theta_vector[i]? := by
    intro extra i hi
    exact List.getElem?_append_left (by omega)
  refine ⟨?_, ?_, ?_⟩
  · exact output_index_1D_congr _ _ _ _ (happ _)
  · exact output_index_1D_congr _ _ _ _ (happ _)
  · apply output_index_1D_congr
    intro i hi
    rcases attach_output_theta_outputs asserts self handle with h | h
    · rw [h]
    · rw [h]
      exact happ _ i hi

/-- A run of C5: an output with no term is appended to an expansion with one output. -/
theorem attach_output_theta_keeps_output_index_1D_witness :
    output_index_1D
        (attach_output_theta_vector
          ({ _A_theta_vector := [], _F_theta_vector := [],
             _output_theta_vector := [[some ⟨fun _ => 1⟩]] } : RBThetaExpansion Int Int) [])
        0 7 =
      output_index_1D
        ({ _A_theta_vector := [], _F_theta_vector := [],
           _output_theta_vector := [[some ⟨fun _ => 1⟩]] } : RBThetaExpansion Int Int) 0 7 :=
  (attach_output_theta_keeps_output_index_1D false
    ({ _A_theta_vector := [], _F_theta_vector := [],
       _output_theta_vector := [[some ⟨fun _ => 1⟩]] } : RBThetaExpansion Int Int) [] none 0 7
    (by decide)).1

/-- C17, as amended: in a build that checks `libmesh_assert`, a null handle given to
`attach_A_theta`, `attach_F_theta` or the one-handle `attach_output_theta` ends in an assertion
failure with the three vectors as before; a null element of a batch given to
`attach_multiple_A_theta` or `attach_multiple_F_theta` ends in the assertion failure once the
loop reaches it, the handles before it appended and the other two vectors as before. In a
build that does not check `libmesh_assert`, these calls return normally and store the null
pointer. -/
theorem attach_null_theta_spec (self : RBThetaExpansion Real Number)
    (pre : List (RBTheta Real Number)) (post : List (Option (RBTheta Real Number))) :
    (attach_A_theta true self none = (.error .assertion_failure, self) ∧
        attach_F_theta true self none = (.error .assertion_failure, self) ∧
        attach_output_theta true self none = (.error .assertion_failure, self) ∧
        attach_multiple_A_theta true self (pre.map some ++ none :: post) =
          (.error .assertion_failure,
            { self with _A_theta_vector := self._A_theta_vector ++ pre.map some }) ∧
        attach_multiple_F_theta true self (pre.map some ++ none :: post) =
          (.error .assertion_failure,
            { self with _F_theta_vector := self._F_theta_vector ++ pre.map some })) ∧
      (attach_A_theta false self none =
          (.ok (), { self with _A_theta_vector := self._A_theta_vector ++ [none] }) ∧
        attach_F_theta false self none =
          (.ok (), { self with _F_theta_vector := self._F_theta_vector ++ [none] }) ∧
        attach_output_theta false self none =
          (.ok (),
            { self with _output_theta_vector := self._output_theta_vector ++ [[none]] }) ∧
        attach_multiple_A_theta false self (pre.map some ++ none :: post) =
          (.ok (),
            { self with
              _A_theta_vector := self._A_theta_vector ++ (pre.map some ++ none :: post) }) ∧
        attach_multiple_F_theta false self (pre.map some ++ none :: post) =
          (.ok (),
            { self with
              _F_theta_vector := self._F_theta_vector ++ (pre.map some ++ none :: post) })) := by
  refine ⟨⟨rfl, rfl, rfl, ?_, ?_⟩, ⟨rfl, rfl, rfl, ?_, ?_⟩⟩
  · rw [attach_multiple_A_theta_append, attach_multiple_A_theta]
    simp
  · rw [attach_multiple_F_theta_append, attach_multiple_F_theta]
    simp
  · exact attach_multiple_A_theta_unchecked _ _
  · exact attach_multiple_F_theta_unchecked _ _

/-- C17, as stated, fails: in a build that does not check `libmesh_assert`, `attach_A_theta`
with a null handle returns normally and the operator vector grows by one; and in a build that
checks it, `attach_multiple_A_theta` with a handle followed by a null ends in an error with the
operator vector grown by one. -/
theorem attach_null_theta_not_rejected :
    ((¬ ∃ e, (attach_A_theta false (empty : RBThetaExpansion ℚ ℚ) none).1 = .error e) ∧
        get_n_A_terms (attach_A_theta false (empty : RBThetaExpansion ℚ ℚ) none).2 = 1 ∧
        get_n_A_terms (empty : RBThetaExpansion ℚ ℚ) = 0) ∧
      ((∃ e, (attach_multiple_A_theta true (empty : RBThetaExpansion ℚ ℚ)
          [some scenario_theta0, none]).1 = .error e) ∧
        get_n_A_terms (attach_multiple_A_theta true (empty : RBThetaExpansion ℚ ℚ)
          [some scenario_theta0, none]).2 = 1) := by
  refine ⟨⟨?_, rfl, rfl⟩, ⟨⟨.assertion_failure, rfl⟩, rfl⟩⟩
  rintro ⟨e, he⟩
  exact Except.noConfusion he

end RBThetaExpansion

/-! ## Lemmas on `Utility` -/

namespace Utility

variable {T : Type}

/-- The loop of `factorial` started at `s` with `s!` and run `len` times. -/
theorem factorial_loop (len s acc : Nat) (hacc : acc = Nat.factorial s % UINT_RANGE) :
    (List.range' s len).foldl
        (fun factorial_n i => (factorial_n * ((i + 1) % UINT_RANGE)) % UINT_RANGE) acc =
      Nat.factorial (s + len) % UINT_RANGE := by
  induction len generalizing s acc with
  | zero => simpa using hacc
  | succ len ih =>
    rw [List.range'_succ, List.foldl_cons, ih (s + 1)]
    · congr 2
      omega
    · rw [hacc, ← Nat.mul_mod, Nat.factorial_succ, Nat.mul_comm]

/-- The loop of `is_sorted` checks each neighbouring pair. -/
theorem is_sorted_loop_iff [LT T] [DecidableRel (fun a b : T => a < b)] (l : List T)
    (prev : T) :
    is_sorted_loop prev l = true ↔ List.Chain (fun a b => ¬ b < a) prev l := by
  induction l generalizing prev with
  | nil => simp [is_sorted_loop]
  | cons first rest ih =>
    unfold is_sorted_loop
    by_cases h : first < prev
    · simp [h]
    · simp [h, ih]

theorem is_sorted_iff_chain [LT T] [DecidableRel (fun a b : T => a < b)] (l : List T) :
    is_sorted l = true ↔ List.Chain' (fun a b => ¬ b < a) l := by
  cases l with
  | nil => simp [is_sorted]
  | cons first rest =>
    unfold is_sorted
    exact is_sorted_loop_iff rest first

/-- One turn of the loop of `binomial` on values that fit the type. -/
theorem binomial_step_exact (T_RANGE n ret i : Nat) (hn : n < T_RANGE) (hi : i < n)
    (hret : ret = Nat.choose n i) (hov : ret * (n - i) < T_RANGE) :
    binomial_step T_RANGE n ret i = Nat.choose n (i + 1) ∧
      ((ret * ((n + T_RANGE - i) % T_RANGE)) % T_RANGE) % ((i + 1) % T_RANGE) = 0 := by
  have h1 : (n + T_RANGE - i) % T_RANGE = n - i := by
    have : n + T_RANGE - i = (n - i) + T_RANGE := by omega
    rw [this, Nat.add_mod_right, Nat.mod_eq_of_lt (by omega)]
  have h2 : (i + 1) % T_RANGE = i + 1 := Nat.mod_eq_of_lt (by omega)
  have h3 : ret * (n - i) = Nat.choose n (i + 1) * (i + 1) := by
    rw [hret, Nat.choose_succ_right_eq]
  unfold binomial_step
  rw [h1, h2, Nat.mod_eq_of_lt hov, h3]
  exact ⟨Nat.mul_div_cancel _ (Nat.succ_pos i), Nat.mul_mod_left _ _⟩

/-- The loop of `binomial` holds `C(n, i)` after `i` turns, while no product overflows. -/
theorem binomial_loop (T_RANGE n : Nat) (hn : n < T_RANGE) (i : Nat) (hi : i ≤ n)
    (hov : ∀ j, j < i → (List.range j).foldl (binomial_step T_RANGE n) 1 * (n - j) < T_RANGE) :
    (List.range i).foldl (binomial_step T_RANGE n) 1 = Nat.choose n i := by
  induction i with
  | zero => simp
  | succ i ih =>
    have hprev := ih (by omega) (fun j hj => hov j (by omega))
    rw [List.range_succ, List.foldl_append, List.foldl_cons, List.foldl_nil]
    exact (binomial_step_exact T_RANGE n _ i hn (by omega) hprev (hov i (by omega))).1

/-- The number of turns of the loop of `binomial`. -/
theorem binomial_turns (T_RANGE n k : Nat) (hk : k ≤ n) (hn : n < T_RANGE) :
    (if k > (n + T_RANGE - k) % T_RANGE then (n + T_RANGE - k) % T_RANGE else k) =
      min k (n - k) := by
  have h1 : (n + T_RANGE - k) % T_RANGE = n - k := by
    have : n + T_RANGE - k = (n - k) + T_RANGE := by omega
    rw [this, Nat.add_mod_right, Nat.mod_eq_of_lt (by omega)]
  rw [h1]
  split_ifs <;> omega

/-- The bisection of `std::lower_bound` on a range partitioned by `comp(·, value)` returns the
partition point. -/
theorem lower_bound_loop_spec (comp : T → T → Bool) (vec : List T) (value : T)
    (hpart : ∀ (i j : Nat) (x y : T), i ≤ j → vec[i]? = some x → vec[j]? = some y →
      comp y value = true → comp x value = true)
    (len : Nat) :
    ∀ first, first + len ≤ vec.length →
      (∀ (i : Nat) (x : T), i < first → vec[i]? = some x → comp x value = true) →
      (∀ (i : Nat) (x : T), first + len ≤ i → vec[i]? = some x → comp x value = false) →
      ∃ p, lower_bound_loop comp vec value first len = .ok p ∧ p ≤ vec.length ∧
        (∀ (i : Nat) (x : T), i < p → vec[i]? = some x → comp x value = true) ∧
        (∀ (i : Nat) (x : T), p ≤ i → vec[i]? = some x → comp x value = false) := by
  induction len using Nat.strong_induction_on with
  | _ len ih =>
    intro first hbound hlow hup
    rw [lower_bound_loop]
    by_cases hlen : len > 0
    · simp only [hlen, if_true]
      have hmid : first + len / 2 < vec.length := by omega
      have hsome := List.getElem?_eq_getElem hmid
      have hsub : vector_subscript vec (first + len / 2) = .ok vec[first + len / 2] := by
        unfold vector_subscript
        rw [hsome]
      rw [hsub]
      simp only []
      cases hc : comp vec[first + len / 2] value with
      | true =>
        simp only [if_true]
        apply ih (len - len / 2 - 1) (by omega) (first + len / 2 + 1) (by omega)
        · intro i x hi hx
          exact hpart i (first + len / 2) x _ (by omega) hx hsome hc
        · intro i x hi hx
          exact hup i x (by omega) hx
      | false =>
        simp only [Bool.false_eq_true, if_false]
        apply ih (len / 2) (by omega) first (by omega) hlow
        intro i x hi hx
        cases hcx : comp x value with
        | false => rfl
        | true =>
          have := hpart (first + len / 2) i _ x hi hsome hx hcx
          rw [hc] at this
          exact absurd this (by decide)
    · simp only [hlen, if_false]
      refine ⟨first, rfl, by omega, hlow, ?_⟩
      intro i x hi hx
      exact hup i x (by omega) hx

/-- The function `binary_find` with a comparison that is a strict weak order, on a range
sorted by it: the result is the first position of an element equivalent to `value`, or `last`
when there is none. -/
theorem binary_find_comp_spec (comp : T → T → Bool) (vec : List T) (value : T)
    (hweak : ∀ a b c, comp a b = true → comp a c = true ∨ comp c b = true)
    (hsort : ∀ (i j : Nat) (x y : T), i < j → vec[i]? = some x → vec[j]? = some y → comp y x = false) :
    ∃ r, binary_find_comp comp vec value = .ok r ∧ r ≤ vec.length ∧
      (∀ (j : Nat) (y : T), vec[j]? = some y → comp y value = false → comp value y = false →
        r ≤ j ∧ ∃ x, vec[r]? = some x ∧ comp x value = false ∧ comp value x = false ∧
          ∀ (i : Nat) (z : T), i < r → vec[i]? = some z → comp z value = true) ∧
      (r = vec.length ↔
        ∀ (j : Nat) (y : T), vec[j]? = some y → ¬ (comp y value = false ∧ comp value y = false)) := by
  have hpart : ∀ (i j : Nat) (x y : T), i ≤ j → vec[i]? = some x → vec[j]? = some y →
      comp y value = true → comp x value = true := by
    intro i j x y hij hx hy hc
    rcases Nat.lt_or_eq_of_le hij with hlt | heq
    · rcases hweak y value x hc with h | h
      · rw [hsort i j x y hlt hx hy] at h
        exact absurd h (by decide)
      · exact h
    · subst heq
      rw [hx] at hy
      cases hy
      exact hc
  obtain ⟨p, hp, hple, hlow, hup⟩ := lower_bound_loop_spec comp vec value hpart vec.length 0
    (by omega) (fun i x hi _ => absurd hi (Nat.not_lt_zero i))
    (fun i x hi hx => by
      rw [List.getElem?_eq_none (by omega)] at hx
      exact Option.noConfusion hx)
  have hfound : ∀ (j : Nat) (y : T), vec[j]? = some y → comp y value = false → comp value y = false →
      p ≤ j ∧ ∃ x, vec[p]? = some x ∧ comp x value = false ∧ comp value x = false := by
    intro j y hy h1 h2
    have hpj : p ≤ j := by
      by_contra hlt
      have := hlow j y (by omega) hy
      rw [h1] at this
      exact absurd this (by decide)
    have hjlt : j < vec.length := (List.getElem?_eq_some.mp hy).1
    have hplt : p < vec.length := by omega
    have hx := List.getElem?_eq_getElem hplt
    refine ⟨hpj, vec[p], hx, hup p _ (le_refl _) hx, ?_⟩
    cases hc : comp value vec[p] with
    | false => rfl
    | true =>
      exfalso
      rcases Nat.lt_or_eq_of_le hpj with hlt | heq
      · rcases hweak value vec[p] y hc with h | h
        · rw [h2] at h
          exact absurd h (by decide)
        · rw [hsort p j _ y hlt hx hy] at h
          exact absurd h (by decide)
      · subst heq
        rw [hx] at hy
        cases hy
        rw [h2] at hc
        exact absurd hc (by decide)
  unfold binary_find_comp lower_bound
  rw [hp]
  simp only []
  by_cases hlast : p = vec.length
  · simp only [hlast, if_true]
    refine ⟨vec.length, rfl, le_refl _, ?_, ?_⟩
    · intro j y hy h1 h2
      obtain ⟨hpj, _⟩ := hfound j y hy h1 h2
      have hjlt : j < vec.length := (List.getElem?_eq_some.mp hy).1
      omega
    · refine ⟨fun _ j y hy hboth => ?_, fun _ => rfl⟩
      obtain ⟨hpj, _⟩ := hfound j y hy hboth.1 hboth.2
      have hjlt : j < vec.length := (List.getElem?_eq_some.mp hy).1
      omega
  · have hplt : p < vec.length := by omega
    have hx := List.getElem?_eq_getElem hplt
    have hsub : vector_subscript vec p = .ok vec[p] := by
      unfold vector_subscript
      rw [hx]
    rw [hsub]
    simp only [hlast, if_false]
    cases hc : comp value vec[p] with
    | true =>
      simp only [if_true]
      refine ⟨vec.length, rfl, le_refl _, ?_, ?_⟩
      · intro j y hy h1 h2
        obtain ⟨_, x, hx2, _, hx4⟩ := hfound j y hy h1 h2
        rw [hx] at hx2
        cases hx2
        rw [hc] at hx4
        exact absurd hx4 (by decide)
      · refine ⟨fun _ j y hy hboth => ?_, fun _ => rfl⟩
        obtain ⟨_, x, hx2, _, hx4⟩ := hfound j y hy hboth.1 hboth.2
        rw [hx] at hx2
        cases hx2
        rw [hc] at hx4
        exact absurd hx4 (by decide)
    | false =>
      simp only [Bool.false_eq_true, if_false]
      refine ⟨p, rfl, hple, ?_, ?_⟩
      · intro j y hy h1 h2
        obtain ⟨hpj, x, hx2, hx3, hx4⟩ := hfound j y hy h1 h2
        exact ⟨hpj, x, hx2, hx3, hx4, hlow⟩
      · refine ⟨fun h => absurd h hlast, fun hnone => ?_⟩
        exact absurd ⟨hup p _ (le_refl _) hx, hc⟩ (hnone p _ hx)

end Utility

/-! ## Claims on `Utility` -/

namespace Utility

variable {T : Type}

/-- C25: `factorial(n)` returns `n!` reduced modulo `2 ^ 32`, which is `n!` itself for
`n <= 12`; `factorial(0)` and `factorial(1)` are 1. -/
theorem factorial_spec (n : Nat) :
    factorial n = Nat.factorial n % UINT_RANGE ∧
      (n ≤ 12 → factorial n = Nat.factorial n) ∧
      factorial 0 = 1 ∧ factorial 1 = 1 := by
  have hmod : ∀ m, factorial m = Nat.factorial m % UINT_RANGE := by
    intro m
    unfold factorial
    by_cases hm : m = 0
    · subst hm
      rfl
    · simp only [hm, if_false]
      rw [factorial_loop (m - 1) 1 1 rfl]
      congr 2
      omega
  refine ⟨hmod n, ?_, rfl, rfl⟩
  intro hn
  rw [hmod n]
  apply Nat.mod_eq_of_lt
  have h12 : Nat.factorial 12 < UINT_RANGE := by decide
  exact lt_of_le_of_lt (Nat.factorial_le hn) h12

/-- A run of C25: `factorial(5)` is 120. -/
theorem factorial_spec_witness : factorial 5 = Nat.factorial 5 :=
  (factorial_spec 5).2.1 (by decide)

/-- C23: `is_sorted` returns true exactly when no element of the range is less than the one
before it, which for a linear order is to say that the range is in non-decreasing order; it
returns true on the empty range and on a range of one element. -/
theorem is_sorted_spec [LinearOrder T] (l : List T) (x : T) :
    (is_sorted l = true ↔
        ∀ (i : Nat) (h : i < l.length - 1),
          ¬ l.get ⟨i + 1, by omega⟩ < l.get ⟨i, by omega⟩) ∧
      (is_sorted l = true ↔ List.Sorted (fun a b => a ≤ b) l) ∧
      is_sorted ([] : List T) = true ∧ is_sorted [x] = true := by
  refine ⟨?_, ?_, rfl, rfl⟩
  · rw [is_sorted_iff_chain, List.chain'_iff_get]
  · rw [is_sorted_iff_chain]
    have hrel : (fun a b : T => ¬ b < a) = (fun a b : T => a ≤ b) := by
      funext a b
      exact propext not_lt
    rw [hrel]
    exact List.chain'_iff_pairwise

/-- A run of C23: the range 1, 2, 2, 5 is sorted. -/
theorem is_sorted_spec_witness : is_sorted [1, 2, 2, 5] = true :=
  ((is_sorted_spec [1, 2, 2, 5] 0).2.1).mpr (by decide)

/-- C22: for `0 <= k <= n`, with `T` an unsigned type of `T_RANGE` values that holds `n`,
and no product `ret * (n - i)` formed in the loop reaching `T_RANGE`, `binomial(n, k)`
returns the binomial coefficient `C(n, k)`; the value of `ret` after `i` turns is `C(n, i)`,
and every division `ret /= (i + 1)` leaves no remainder. -/
theorem binomial_spec (T_RANGE n k : Nat) (hk : k ≤ n) (hn : n < T_RANGE)
    (hov : ∀ i, i < min k (n - k) →
      (List.range i).foldl (binomial_step T_RANGE n) 1 * (n - i) < T_RANGE) :
    binomial T_RANGE n k = Nat.choose n k ∧
      (∀ i, i ≤ min k (n - k) →
        (List.range i).foldl (binomial_step T_RANGE n) 1 = Nat.choose n i) ∧
      (∀ i, i < min k (n - k) →
        (((List.range i).foldl (binomial_step T_RANGE n) 1 *
            ((n + T_RANGE - i) % T_RANGE)) % T_RANGE) % ((i + 1) % T_RANGE) = 0) := by
  have hloop : ∀ i, i ≤ min k (n - k) →
      (List.range i).foldl (binomial_step T_RANGE n) 1 = Nat.choose n i := by
    intro i hi
    exact binomial_loop T_RANGE n hn i (by omega) (fun j hj => hov j (by omega))
  refine ⟨?_, hloop, ?_⟩
  · unfold binomial
    simp only []
    rw [binomial_turns T_RANGE n k hk hn, hloop _ (le_refl _)]
    by_cases h : k ≤ n - k
    · rw [Nat.min_eq_left h]
    · rw [Nat.min_eq_right (by omega), Nat.choose_symm hk]
  · intro i hi
    exact (binomial_step_exact T_RANGE n _ i hn (by omega) (hloop i (by omega)) (hov i hi)).2

/-- A run of C22: `binomial(5, 2)` in a 32-bit unsigned type is 10. -/
theorem binomial_spec_witness : binomial UINT_RANGE 5 2 = Nat.choose 5 2 :=
  (binomial_spec UINT_RANGE 5 2 (by decide) (by decide) (by decide)).1

/-- C24: on a range sorted in non-decreasing order `binary_find` returns, when `value` occurs
in the range, the first position that holds it, and returns `last` exactly when `value` does
not occur. With a comparison object that is a strict weak order, on a range sorted by it, the
same holds with "equivalent to `value`" for "holds `value`". -/
theorem binary_find_spec [LinearOrder T] (vec : List T) (value : T)
    (hs : List.Sorted (fun a b => a ≤ b) vec) :
    (∃ r, binary_find vec value = .ok r ∧ r ≤ vec.length ∧
        (value ∈ vec →
          r < vec.length ∧ vec[r]? = some value ∧
            ∀ (i : Nat) (z : T), i < r → vec[i]? = some z → z < value) ∧
        (r = vec.length ↔ value ∉ vec)) ∧
      (∀ (U : Type) (comp : U → U → Bool) (range : List U) (val : U),
        (∀ a b c, comp a b = true → comp a c = true ∨ comp c b = true) →
        (∀ (i j : Nat) (x y : U), i < j → range[i]? = some x → range[j]? = some y →
          comp y x = false) →
        ∃ r, binary_find_comp comp range val = .ok r ∧ r ≤ range.length ∧
          (∀ (j : Nat) (y : U), range[j]? = some y → comp y val = false →
            comp val y = false →
              r ≤ j ∧ ∃ x, range[r]? = some x ∧ comp x val = false ∧ comp val x = false ∧
                ∀ (i : Nat) (z : U), i < r → range[i]? = some z → comp z val = true) ∧
          (r = range.length ↔
            ∀ (j : Nat) (y : U), range[j]? = some y →
              ¬ (comp y val = false ∧ comp val y = false))) := by
  refine ⟨?_, fun U comp range val hweak hsort =>
    binary_find_comp_spec comp range val hweak hsort⟩
  have hweak : ∀ a b c : T, decide (a < b) = true →
      decide (a < c) = true ∨ decide (c < b) = true := by
    intro a b c hab
    simp only [decide_eq_true_eq] at hab ⊢
    rcases lt_or_le a c with h | h
    · exact Or.inl h
    · exact Or.inr (lt_of_le_of_lt h hab)
  have hsort : ∀ (i j : Nat) (x y : T), i < j → vec[i]? = some x → vec[j]? = some y →
      decide (y < x) = false := by
    intro i j x y hij hx hy
    obtain ⟨hi, hxi⟩ := List.getElem?_eq_some.mp hx
    obtain ⟨hj, hyj⟩ := List.getElem?_eq_some.mp hy
    have := (List.pairwise_iff_getElem.mp hs) i j hi hj hij
    rw [hxi, hyj] at this
    simpa using this
  obtain ⟨r, hr, hle, hfound, hlast⟩ :=
    binary_find_comp_spec (fun a b : T => decide (a < b)) vec value hweak hsort
  have hequiv : ∀ y : T, (decide (y < value) = false ∧ decide (value < y) = false) ↔
      y = value := by
    intro y
    simp only [decide_eq_false_iff_not, not_lt]
    exact ⟨fun h => le_antisymm h.2 h.1, fun h => ⟨le_of_eq h.symm, le_of_eq h⟩⟩
  refine ⟨r, hr, hle, ?_, ?_⟩
  · intro hmem
    obtain ⟨j, hj⟩ := List.mem_iff_getElem?.mp hmem
    obtain ⟨hrj, x, hx, hx1, hx2, hbefore⟩ := hfound j value hj (by simp) (by simp)
    have hxv : x = value := (hequiv x).mp ⟨hx1, hx2⟩
    have hjlt : j < vec.length := (List.getElem?_eq_some.mp hj).1
    refine ⟨by omega, by rw [hx, hxv], ?_⟩
    intro i z hi hz
    simpa using hbefore i z hi hz
  · rw [hlast]
    constructor
    · intro hnone hmem
      obtain ⟨j, hj⟩ := List.mem_iff_getElem?.mp hmem
      exact hnone j value hj ((hequiv value).mpr rfl)
    · intro hnot j y hy hboth
      have hyv := (hequiv y).mp hboth
      rw [hyv] at hy
      exact hnot (List.mem_iff_getElem?.mpr ⟨j, hy⟩)

/-- A run of C24: 5 is looked up in the sorted range 1, 3, 5, 5, 8. -/
theorem binary_find_spec_witness :
    ∃ r, binary_find [1, 3, 5, 5, 8] 5 = .ok r ∧ r ≤ [1, 3, 5, 5, 8].length ∧
      (5 ∈ [1, 3, 5, 5, 8] →
        r < [1, 3, 5, 5, 8].length ∧ [1, 3, 5, 5, 8][r]? = some 5 ∧
          ∀ (i : Nat) (z : Nat), i < r → [1, 3, 5, 5, 8][i]? = some z → z < 5) ∧
      (r = [1, 3, 5, 5, 8].length ↔ 5 ∉ [1, 3, 5, 5, 8]) :=
  (binary_find_spec [1, 3, 5, 5, 8] 5 (by decide)).1

end Utility

end libMesh
